import Mathlib

/-!
Verification of the CDS pipeline-build lifecycle engine
(engine/api/pipeline/pipeline_build.go) against its specification.

The Go code is shallowly embedded: the relational store is a list of rows,
SQL queries become list filters/sorts, stateful operations become pure
functions from store state to store state, and the external collaborators
(VCS client, event bus, log/artifact stores) are plain data passed in or
threaded through the state.  Machine integers (int64) are modelled as Int;
the timestamps handed out by time.Now() are passed explicitly.  Functions
of the repository that live outside the provided sources (sdk helpers and
store helpers for jobs/logs/artifacts) are modelled from the specification
and marked as such in their doc comments.
-/

namespace CDS

/-- Build/stage statuses of the sdk package (sdk.Status).  The unknown
constructor models sdk.StatusFromString on an unrecognized string. -/
inductive Status where
  | building
  | success
  | fail
  | stopped
  | skipped
  | waiting
  | disabled
  | unknown
  deriving Repr, DecidableEq

/-- String rendering of a status (sdk.Status.String). -/
def Status.toStr : Status → String
  | .building => "Building"
  | .success => "Success"
  | .fail => "Fail"
  | .stopped => "Stopped"
  | .skipped => "Skipped"
  | .waiting => "Waiting"
  | .disabled => "Disabled"
  | .unknown => "Unknown"

/-- Terminal statuses per the specification glossary. -/
def Status.isTerminal : Status → Bool
  | .success | .fail | .stopped | .skipped | .disabled => true
  | _ => false

/-- A build parameter (sdk.Parameter): name, type and value. -/
structure Parameter where
  name : String
  ptype : String
  value : String
  deriving Repr, DecidableEq

/-- One job inside a stage snapshot (sdk.PipelineBuildJob); its status is
kept as a string in the Go struct and compared against status strings. -/
structure PBJob where
  id : Int
  status : String
  deriving Repr, DecidableEq

/-- One stage inside a build snapshot (sdk.Stage), restricted to the fields
this file's operations read or write. -/
structure Stage where
  name : String
  buildOrder : Int
  enabled : Bool
  status : Status
  jobs : List PBJob
  deriving Repr, DecidableEq

/-- A VCS commit as returned by the repositories-manager client. -/
structure VCSCommit where
  hash : String
  authorName : String
  message : String
  deriving Repr, DecidableEq

/-- A VCS branch as returned by the repositories-manager client. -/
structure VCSBranch where
  displayId : String
  isDefault : Bool
  latestCommit : String
  deriving Repr, DecidableEq

/-- Repository metadata as returned by client.RepoByFullname. -/
structure RepoInfo where
  sshCloneURL : String
  httpCloneURL : String
  deriving Repr, DecidableEq

/-- The repositories-manager client, modelled as response data: each field
holds the responses the collaborator would give, an absent key or a none
standing for a failed call.  Branches() failures are modelled by an empty
list because the code ignores that error. -/
structure VCSClient where
  repo : Option RepoInfo
  branches : List VCSBranch
  commitByHash : List (String × VCSCommit)
  commitRanges : List ((String × String × String) × List VCSCommit)
  branchByName : List (String × VCSBranch)
  deriving Repr, DecidableEq

/-- The user who triggered a build (sdk.User, fields used here). -/
structure UserInfo where
  id : Int
  username : String
  fullname : String
  email : String
  deriving Repr, DecidableEq

/-- Reference to the parent pipeline build of a triggered child. -/
structure ParentBuildRef where
  id : Int
  applicationId : Int
  deriving Repr, DecidableEq

/-- The trigger of a pipeline build (sdk.PipelineBuildTrigger). -/
structure PipelineBuildTrigger where
  manualTrigger : Bool
  scheduledTrigger : Bool
  triggeredBy : Option UserInfo
  parentPipelineBuild : Option ParentBuildRef
  vcsChangesBranch : String
  vcsChangesHash : String
  vcsChangesAuthor : String
  deriving Repr, DecidableEq

/-- A row of the pipeline_build table.  The args, stages and commits JSON
columns are modelled as the typed values they serialize (the JSON decode
path itself is modelled separately for scanPipelineBuild); done is the
nullable done column. -/
structure BuildRow where
  id : Int
  applicationId : Int
  pipelineId : Int
  environmentId : Int
  buildNumber : Int
  version : Int
  status : Status
  args : List Parameter
  stages : List Stage
  commits : List VCSCommit
  startTime : Int
  done : Option Int
  manualTrigger : Bool
  scheduledTrigger : Bool
  triggeredBy : Option Int
  parentPipelineBuildId : Option Int
  vcsBranch : String
  vcsHash : String
  vcsAuthor : String
  deriving Repr, DecidableEq

/-- The in-memory sdk.PipelineBuild, restricted to the fields this file's
operations touch. -/
structure PipelineBuild where
  id : Int
  applicationId : Int
  pipelineId : Int
  environmentId : Int
  buildNumber : Int
  version : Int
  status : Status
  parameters : List Parameter
  stages : List Stage
  commits : List VCSCommit
  startTime : Int
  done : Option Int
  trigger : PipelineBuildTrigger
  deriving Repr, DecidableEq

/-- Typed counterpart of scanPipelineBuild on a stored row: rebuilds the
in-memory build from the row (the JSON columns being modelled as typed
values, decoding is field transcription here; the error behavior of the
real scan on raw strings is modelled below by scanPipelineBuild). -/
def scanRow (r : BuildRow) : PipelineBuild :=
  { id := r.id
    applicationId := r.applicationId
    pipelineId := r.pipelineId
    environmentId := r.environmentId
    buildNumber := r.buildNumber
    version := r.version
    status := r.status
    parameters := r.args
    stages := r.stages
    commits := r.commits
    startTime := r.startTime
    done := r.done
    trigger :=
      { manualTrigger := r.manualTrigger
        scheduledTrigger := r.scheduledTrigger
        triggeredBy := r.triggeredBy.map (fun i => ⟨i, "", "", ""⟩)
        parentPipelineBuild := r.parentPipelineBuildId.map (fun i => ⟨i, 0⟩)
        vcsChangesBranch := r.vcsBranch
        vcsChangesHash := r.vcsHash
        vcsChangesAuthor := r.vcsAuthor } }

/-- Rows of the pipeline_build table matching one (pipeline, application,
environment) triple, the WHERE clause shared by GetLastBuildNumber. -/
def matchesTriple (pipID appID envID : Int) (r : BuildRow) : Bool :=
  r.pipelineId == pipID && r.applicationId == appID && r.environmentId == envID

/-- Largest build_number of a list of rows, none when the list is empty
(ORDER BY build_number DESC LIMIT 1). -/
def lastBuildNumberAux : List BuildRow → Option Int
  | [] => none
  | r :: rs =>
    match lastBuildNumberAux rs with
    | none => some r.buildNumber
    | some m => some (max r.buildNumber m)

/-- GetLastBuildNumber: highest build_number stored for the triple, 0 when
no row exists (the code treats sql.ErrNoRows as 0).  The SELECT carries
FOR UPDATE, so in the code the surrounding transaction holds the row lock
until it commits; the model makes the read-then-insert atomic. -/
def GetLastBuildNumber (db : List BuildRow) (pipID appID envID : Int) : Int :=
  (lastBuildNumberAux (db.filter (matchesTriple pipID appID envID))).getD 0

/-- Ordering used by the history query (ORDER BY pb.version DESC,
pb.id DESC): pbBefore a b holds when a sorts no later than b. -/
def pbBefore (a b : BuildRow) : Bool :=
  b.version < a.version || (a.version == b.version && b.id ≤ a.id)

/-- Insertion into a list sorted by the given precedence. -/
def insertSorted (le : BuildRow → BuildRow → Bool) (r : BuildRow) :
    List BuildRow → List BuildRow
  | [] => [r]
  | x :: xs => if le x r then x :: insertSorted le r xs else r :: x :: xs

/-- Stable sort of rows by the given precedence (the ORDER BY clause). -/
def sortRows (le : BuildRow → BuildRow → Bool) (l : List BuildRow) :
    List BuildRow :=
  l.foldr (insertSorted le) []

/-- LoadPipelineBuildsByApplicationAndPipeline: builds of one
(application, pipeline, environment), optionally filtered by status and
branch (empty string means no filter), ordered by (version DESC, id DESC)
and limited. -/
def LoadPipelineBuildsByApplicationAndPipeline (db : List BuildRow)
    (applicationID pipelineID environmentID : Int) (limit : Nat)
    (status branchName : String) : List PipelineBuild :=
  let rows := db.filter (fun r =>
    r.applicationId == applicationID && r.pipelineId == pipelineID &&
    r.environmentId == environmentID &&
    (status == "" || r.status.toStr == status) &&
    (branchName == "" || r.vcsBranch == branchName))
  ((sortRows pbBefore rows).take limit).map scanRow

/-- Branch read before loading the history: the value of the first
parameter named ".git.branch" (note the leading dot), empty otherwise. -/
def dotGitBranch (params : List Parameter) : String :=
  match params.find? (fun p => p.name == ".git.branch") with
  | some p => p.value
  | none => ""

/-- Selection of the previous build out of the 2-element history: the
loop keeps the entry with the smaller build number and yields none unless
the history holds exactly two builds. -/
def pickPrevious (history : List PipelineBuild) : Option PipelineBuild :=
  match history with
  | [a, b] => some (if b.buildNumber < a.buildNumber then b else a)
  | _ => none

/-- An event published on the bus: the build and, when resolved, the
previous build handed to subscribers. -/
structure PublishedEvent where
  build : PipelineBuild
  previous : Option PipelineBuild
  deriving Repr, DecidableEq

/-- Result of UpdatePipelineBuildStatusAndStage: the updated table, the
event published (none when the status did not change) and the updated
in-memory build. -/
structure UpdateStatusResult where
  db : List BuildRow
  event : Option PublishedEvent
  pb : PipelineBuild
  deriving Repr, DecidableEq

/-- UpdatePipelineBuildStatusAndStage: writes status, stages and done of
the row, loads the 2-deep history filtered by the ".git.branch" parameter
(empty, hence unfiltered, when that exact name is absent), selects the
previous build, and publishes an event exactly when the new status
differs from the in-memory one.  The cache wipe and the repositories
manager reload have no effect on the store and are not modelled. -/
def UpdatePipelineBuildStatusAndStage (db : List BuildRow)
    (pb : PipelineBuild) (newStatus : Status) : UpdateStatusResult :=
  let db' := db.map (fun r =>
    if r.id == pb.id then
      { r with status := newStatus, stages := pb.stages, done := pb.done }
    else r)
  let branch := dotGitBranch pb.parameters
  let history := LoadPipelineBuildsByApplicationAndPipeline db'
    pb.applicationId pb.pipelineId pb.environmentId 2 "" branch
  let previous := pickPrevious history
  let pb' := { pb with status := newStatus }
  let ev := if pb.status ≠ newStatus then some ⟨pb', previous⟩ else none
  ⟨db', ev, pb'⟩

/-- Modelled from the spec (sdk.AddParameter lives outside src/): appends a
parameter to the list; within one source the order in which parameters are
given is preserved. -/
def AddParameter (params : List Parameter) (name ptype value : String) :
    List Parameter :=
  params ++ [⟨name, ptype, value⟩]

/-- Modelled from the spec (sdk.ParameterValue lives outside src/): value
of the first parameter with the given name, empty when absent. -/
def ParameterValue (params : List Parameter) (name : String) : String :=
  match params.find? (fun p => p.name == name) with
  | some p => p.value
  | none => ""

/-- Insertion into a name-keyed map: replaces the entry stored under the
parameter's name, appending a fresh key. -/
def mapUpsert (m : List (String × Parameter)) (p : Parameter) :
    List (String × Parameter) :=
  if m.any (fun e => e.1 == p.name) then
    m.map (fun e => if e.1 == p.name then (p.name, p) else e)
  else m ++ [(p.name, p)]

/-- Modelled from the spec: ProcessPipelineBuildVariables (pipeline
package, outside src/) merges pipeline defaults, application-pipeline
overrides and caller parameters, in that precedence order (lowest first,
later wins), into a name-keyed Go map.  The association list represents
the map; its own order is unobservable because Go randomizes map
iteration order (see iterateMap). -/
def ProcessPipelineBuildVariables
    (pipelineParams appPipelineArgs params : List Parameter) :
    List (String × Parameter) :=
  (pipelineParams ++ appPipelineArgs ++ params).foldl mapUpsert []

/-- Iteration over a Go map along a chosen key order: for each key of the
order, the entry stored under it.  One run of the code corresponds to an
order enumerating each key exactly once; Go deliberately randomizes that
order, so it is an input of the model, not determined by the code. -/
def iterateMap (m : List (String × Parameter)) (order : List String) :
    List Parameter :=
  order.filterMap (fun k => m.lookup k)

/-- An order is a possible Go map iteration when it enumerates the keys
of the map exactly once each. -/
def validIterationOrder (m : List (String × Parameter))
    (order : List String) : Prop :=
  order.Perm (m.map Prod.fst)

instance (m : List (String × Parameter)) (order : List String) :
    Decidable (validIterationOrder m order) :=
  inferInstanceAs (Decidable (order.Perm (m.map Prod.fst)))

/-- The project owning the build (fields used here). -/
structure Project where
  id : Int
  key : String
  deriving Repr, DecidableEq

/-- The pipeline being built: identity, type ("build", "deployment" or
"testing"), default parameters and stage definitions (LoadPipelineStage,
outside src/, is modelled from the spec as yielding the stages field). -/
structure Pipeline where
  id : Int
  name : String
  projectKey : String
  ptype : String
  parameter : List Parameter
  stages : List Stage
  deriving Repr, DecidableEq

/-- The application being built (fields used here). -/
structure Application where
  id : Int
  name : String
  repositoryFullname : String
  deriving Repr, DecidableEq

/-- The target environment (fields used here). -/
structure Environment where
  id : Int
  name : String
  deriving Repr, DecidableEq

/-- Fresh surrogate id handed out by the INSERT ... RETURNING id. -/
def nextRowId (db : List BuildRow) : Int :=
  1 + db.foldl (fun m r => max m r.id) 0

/-- insertPipelineBuild: the INSERT of the new build row.  Status is
Building; start and done both receive time.Now(); triggered_by and
parent_pipeline_build_id are NULL when the corresponding id is 0. -/
def insertPipelineBuild (db : List BuildRow) (args : List Parameter)
    (applicationID pipelineID : Int) (pb : PipelineBuild) (envID : Int)
    (stages : List Stage) (commits : List VCSCommit) (now : Int) :
    List BuildRow × Int :=
  let id := nextRowId db
  let triggeredBy := match pb.trigger.triggeredBy with
    | some u => u.id
    | none => 0
  let parentPipelineID := match pb.trigger.parentPipelineBuild with
    | some par => par.id
    | none => 0
  let row : BuildRow :=
    { id := id
      applicationId := applicationID
      pipelineId := pipelineID
      environmentId := envID
      buildNumber := pb.buildNumber
      version := pb.version
      status := Status.building
      args := args
      stages := stages
      commits := commits
      startTime := now
      done := some now
      manualTrigger := pb.trigger.manualTrigger
      scheduledTrigger := pb.trigger.scheduledTrigger
      triggeredBy := if triggeredBy ≠ 0 then some triggeredBy else none
      parentPipelineBuildId :=
        if parentPipelineID ≠ 0 then some parentPipelineID else none
      vcsBranch := pb.trigger.vcsChangesBranch
      vcsHash := pb.trigger.vcsChangesHash
      vcsAuthor := pb.trigger.vcsChangesAuthor }
  (db ++ [row], id)

/-- Result of a successful InsertPipelineBuild: the table after the whole
operation, the new row's id, the parameter list serialized at the INSERT,
the returned in-memory build and the published creation event. -/
structure InsertResult where
  db : List BuildRow
  newId : Int
  vars : List (String × Parameter)
  argsInsert : List Parameter
  pb : PipelineBuild
  event : PublishedEvent
  deriving Repr, DecidableEq

/-- Triggering-user phase of the parameter assembly: when a user
triggered the build, the three cds.triggered_by keys are appended. -/
def pbParamsUser (trigger : PipelineBuildTrigger)
    (params : List Parameter) : List Parameter :=
  match trigger.triggeredBy with
  | none => params
  | some u =>
    let ps := AddParameter params "cds.triggered_by.username" "string" u.username
    let ps := AddParameter ps "cds.triggered_by.fullname" "string" u.fullname
    AddParameter ps "cds.triggered_by.email" "string" u.email

/-- Git branch and hash resolution phase: a trigger branch is stored as
is (with its hash, possibly empty); otherwise the branch comes from a
non-empty git.branch pipeline parameter, or from the client's default
branch (master without a client), and the hash, when absent from the
parameters, from the branch's latest commit when one is known. -/
def pbParamsGit (client : Option VCSClient)
    (trigger : PipelineBuildTrigger) (params : List Parameter) :
    List Parameter × PipelineBuildTrigger :=
  if trigger.vcsChangesBranch ≠ "" then
    (AddParameter
      (AddParameter params "git.branch" "string" trigger.vcsChangesBranch)
      "git.hash" "string" trigger.vcsChangesHash, trigger)
  else
    let clientBranches := match client with
      | none => []
      | some c => c.branches
    let defaultBranch := clientBranches.foldl
      (fun d b => if b.isDefault then b.displayId else d) "master"
    let lastGitHash := fun (br : String) => clientBranches.foldl
      (fun acc b => if b.displayId == br then b.latestCommit else acc) ""
    let foundBranch := params.foldl
      (fun acc q => if q.name == "git.branch" && q.value != "" then some q.value else acc)
      (none : Option String)
    let foundHash := params.foldl
      (fun acc q => if q.name == "git.hash" && q.value != "" then some q.value else acc)
      (none : Option String)
    let trigAfterLoop := { trigger with
      vcsChangesBranch := (match foundBranch with
        | some b => b
        | none => trigger.vcsChangesBranch)
      vcsChangesHash := (match foundHash with
        | some h => h
        | none => trigger.vcsChangesHash) }
    match foundBranch with
    | none =>
      let params := AddParameter params "git.branch" "string" defaultBranch
      let trig := { trigAfterLoop with vcsChangesBranch := defaultBranch }
      if lastGitHash defaultBranch ≠ "" then
        (AddParameter params "git.hash" "string" (lastGitHash defaultBranch),
         { trig with vcsChangesHash := lastGitHash defaultBranch })
      else (params, trig)
    | some _ =>
      if foundHash = none ∧ lastGitHash trigAfterLoop.vcsChangesBranch ≠ "" then
        (AddParameter params "git.hash" "string"
           (lastGitHash trigAfterLoop.vcsChangesBranch),
         { trigAfterLoop with
             vcsChangesHash := lastGitHash trigAfterLoop.vcsChangesBranch })
      else (params, trigAfterLoop)

/-- Commit-metadata phase: with a client and a resolved hash, a found
commit contributes git.author and git.message; a failed lookup only
logs. -/
def pbParamsCommit (client : Option VCSClient)
    (pt : List Parameter × PipelineBuildTrigger) :
    List Parameter × PipelineBuildTrigger :=
  match client with
  | some c =>
    if pt.2.vcsChangesHash ≠ "" then
      match c.commitByHash.lookup pt.2.vcsChangesHash with
      | some commit =>
        (AddParameter
          (AddParameter pt.1 "git.author" "string" commit.authorName)
          "git.message" "string" commit.message,
         { pt.2 with vcsChangesAuthor := commit.authorName })
      | none => pt
    else pt
  | none => pt

/-- Continuation of insertPBParams after the repository-url step: the
triggering user's keys, the git branch/hash resolution and the commit
enrichment (all total). -/
def insertPBParamsRest (_app : Application) (client : Option VCSClient)
    (trigger : PipelineBuildTrigger) (params1 : List Parameter) :
    Option (List Parameter × PipelineBuildTrigger) :=
  some (pbParamsCommit client
    (pbParamsGit client trigger (pbParamsUser trigger params1)))

/-- Parameter assembly phase of InsertPipelineBuild, from the canonical
cds keys through the git commit enrichment: returns the grown caller
parameter list together with the trigger updated with the resolved
branch, hash and author; errs (none) exactly when the bound client's
RepoByFullname call fails. -/
def insertPBParams (p : Pipeline) (app : Application) (env : Environment)
    (pbBN pbVersion : Int) (client : Option VCSClient)
    (trigger : PipelineBuildTrigger) (params0 : List Parameter) :
    Option (List Parameter × PipelineBuildTrigger) :=
  let params := AddParameter params0 "cds.pipeline" "string" p.name
  let params := AddParameter params "cds.project" "string" p.projectKey
  let params := AddParameter params "cds.application" "string" app.name
  let params := AddParameter params "cds.environment" "string" env.name
  let params := AddParameter params "cds.buildNumber" "string" (toString pbBN)
  let params := AddParameter params "cds.version" "string" (toString pbVersion)
  let rest := fun (params : List Parameter) =>
    insertPBParamsRest app client trigger params
  match client with
  | none => rest params
  | some c =>
    match c.repo with
    | none => none
    | some repo =>
      rest (AddParameter
        (AddParameter params "git.url" "string" repo.sshCloneURL)
        "git.http_url" "string" repo.httpCloneURL)

/-- Version-reset test of InsertPipelineBuild: the provided version is
dropped in favor of the build number when it is invalid, when there is no
parent build, or when the parent is in another application while the
pipeline type is "build". -/
def resetVersionFlag (version : Int) (trigger : PipelineBuildTrigger)
    (app : Application) (p : Pipeline) : Bool :=
  decide (version ≤ 0) ||
  (match trigger.parentPipelineBuild with
   | none => true
   | some par => app.id != par.applicationId && p.ptype == "build")

/-- Version resolved at insert: the provided version, or the allocated
build number when the reset rule fires. -/
def resolvedVersion (version : Int) (trigger : PipelineBuildTrigger)
    (app : Application) (p : Pipeline) (pbBN : Int) : Int :=
  if resetVersionFlag version trigger app p then pbBN else version

/-- Stage snapshot taken at insert: the pipeline's stages with the first
one set Waiting. -/
def snapshotStages (stages : List Stage) : List Stage :=
  match stages with
  | [] => []
  | s :: rest => { s with status := Status.waiting } :: rest

/-- InsertPipelineBuild: allocates the next build number for the triple,
resolves the version, assembles the parameter list (canonical keys,
repository urls, triggering user, git branch/hash resolution, commit
metadata), merges it with pipeline defaults and application overrides,
snapshots the stages with the first one set Waiting, inserts the row in
the same transaction as the build-number read, then loads the 2-deep
history (branch taken from the ".git.branch" parameter), injects
git.previousHash when a previous build carries a hash, and publishes the
creation event.  The client is none when no repositories manager is bound
(or its authorization failed); a failing RepoByFullname aborts with an
error (none); a failing Commit lookup only skips the enrichment.  now
stands for time.Now(), order for the Go map iteration order. -/
def InsertPipelineBuild (db : List BuildRow) (_project : Project)
    (p : Pipeline) (app : Application) (client : Option VCSClient)
    (applicationPipelineArgs params0 : List Parameter) (env : Environment)
    (version : Int) (trigger : PipelineBuildTrigger) (now : Int)
    (order : List String) : Option InsertResult :=
  let buildNumber := GetLastBuildNumber db p.id app.id env.id
  let pbBN := buildNumber + 1
  let pbVersion := resolvedVersion version trigger app p pbBN
  match insertPBParams p app env pbBN pbVersion client trigger params0 with
  | none => none
  | some (params, trig) =>
  let mapVar := ProcessPipelineBuildVariables p.parameter applicationPipelineArgs params
  let argsFinal := iterateMap mapVar order
  let stages := snapshotStages p.stages
  let pbPre : PipelineBuild :=
    { id := 0
      applicationId := app.id
      pipelineId := p.id
      environmentId := env.id
      buildNumber := pbBN
      version := pbVersion
      status := Status.building
      parameters := params
      stages := []
      commits := []
      startTime := 0
      done := none
      trigger := trig }
  let (db1, newId) := insertPipelineBuild db argsFinal app.id p.id pbPre env.id stages [] now
  let pb := { pbPre with id := newId }
  let branch := dotGitBranch pb.parameters
  let history := LoadPipelineBuildsByApplicationAndPipeline db1
    app.id p.id env.id 2 "" branch
  let previous := pickPrevious history
  let db2 := match previous with
    | none => db1
    | some prev =>
      let previousHash := ParameterValue prev.parameters "git.hash"
      if previousHash ≠ "" then
        let args2 := AddParameter argsFinal "git.previousHash" "string" previousHash
        db1.map (fun r => if r.id == newId then { r with args := args2 } else r)
      else db1
  some ⟨db2, newId, mapVar, argsFinal, pb, ⟨pb, previous⟩⟩

/-- Modelled from the spec (DeleteBuildLogs lives outside src/): removes
the given job's logs from the log store, kept as the list of job ids that
have logs. -/
def DeleteBuildLogs (jobId : Int) (logs : List Int) : List Int :=
  logs.filter (fun l => l ≠ jobId)

/-- Restart walk for a Success build: every stage has its jobs' logs
deleted and its job list cleared, the first stage is set Waiting. -/
def restartSuccessStages : Nat → List Stage → List Int →
    List Stage × List Int
  | _, [], logs => ([], logs)
  | i, st :: rest, logs =>
    let st1 := { st with status := if i = 0 then Status.waiting else st.status }
    let logs1 := st1.jobs.foldl (fun l j => DeleteBuildLogs j.id l) logs
    let r := restartSuccessStages (i + 1) rest logs1
    ({ st1 with jobs := [] } :: r.1, r.2)

/-- Restart walk for a non-Success build: stages that are not Fail are
left alone; a Fail stage is set Waiting, the logs of its jobs whose
status string is "Fail" are deleted, and its job list is cleared. -/
def restartFailStages : List Stage → List Int → List Stage × List Int
  | [], logs => ([], logs)
  | st :: rest, logs =>
    if st.status ≠ Status.fail then
      let r := restartFailStages rest logs
      (st :: r.1, r.2)
    else
      let logs1 := st.jobs.foldl
        (fun l j => if j.status == Status.fail.toStr then DeleteBuildLogs j.id l else l)
        logs
      let r := restartFailStages rest logs1
      ({ st with status := Status.waiting, jobs := [] } :: r.1, r.2)

/-- State over which restart acts: the table, the in-memory build, and
the external log, artifact and test-result stores for this build
(DeleteArtifact and DeletePipelineTestResults live outside src/ and are
modelled from the spec as erasing the build's entries). -/
structure RestartState where
  db : List BuildRow
  pb : PipelineBuild
  logs : List Int
  artifacts : List Int
  testResults : List Int
  deriving Repr, DecidableEq

/-- RestartPipelineBuild: on a Success build, clears every stage's jobs
(deleting their logs), resets the first stage to Waiting, resets start,
clears done, and deletes the build's artifacts and test results; on any
other build, resets the Fail stages to Waiting, deleting the logs of
their Fail jobs and clearing their job lists, and clears done.  Both
paths finish through UpdatePipelineBuildStatusAndStage with Building. -/
def RestartPipelineBuild (s : RestartState) (now : Int) :
    RestartState × Option PublishedEvent :=
  if s.pb.status = Status.success then
    let (stages1, logs1) := restartSuccessStages 0 s.pb.stages s.logs
    let pb1 := { s.pb with stages := stages1, startTime := now, done := none }
    let res := UpdatePipelineBuildStatusAndStage s.db pb1 Status.building
    ({ db := res.db, pb := res.pb, logs := logs1,
       artifacts := [], testResults := [] }, res.event)
  else
    let (stages1, logs1) := restartFailStages s.pb.stages s.logs
    let pb1 := { s.pb with stages := stages1, done := none }
    let res := UpdatePipelineBuildStatusAndStage s.db pb1 Status.building
    ({ db := res.db, pb := res.pb, logs := logs1,
       artifacts := s.artifacts, testResults := s.testResults }, res.event)

/-- State over which the branch purge acts: the table, the log and job
stores keyed by build id, and the record of published stop events. -/
structure BranchState where
  db : List BuildRow
  logsByPb : List Int
  jobsByPb : List Int
  stopped : List Int
  deriving Repr, DecidableEq

/-- StopPipelineBuild, restricted to its effects on this state: the
build's building jobs are stopped (StopBuildingPipelineBuildJob lives
outside src/) and a stop event is published; the model records the
published stop. -/
def StopPipelineBuild (st : BranchState) (pbID : Int) : BranchState :=
  { st with stopped := st.stopped ++ [pbID] }

/-- DeletePipelineBuildByID: deletes the build's logs, then its jobs,
then the row itself (DeleteBuildLogsByPipelineBuildID and
DeletePipelineBuildJob live outside src/ and are modelled from the spec
as erasing the build's entries from those stores). -/
def DeletePipelineBuildByID (st : BranchState) (pbID : Int) : BranchState :=
  { st with
    logsByPb := st.logsByPb.filter (fun i => i ≠ pbID)
    jobsByPb := st.jobsByPb.filter (fun i => i ≠ pbID)
    db := st.db.filter (fun r => r.id ≠ pbID) }

/-- LoadPipelineBuildByApplicationAndBranch: the builds of an application
on a branch, ordered by id ASC. -/
def LoadPipelineBuildByApplicationAndBranch (db : List BuildRow)
    (appID : Int) (branch : String) : List PipelineBuild :=
  (sortRows (fun a b => a.id ≤ b.id)
    (db.filter (fun r => r.applicationId == appID && r.vcsBranch == branch))).map
    scanRow

/-- DeleteBranchBuilds: walks the builds of (application, branch); a
build whose status is not Building is skipped by the loop's continue; a
Building build is stopped and then deleted.  Stop/delete errors are
logged and skipped in the code; the model is total. -/
def DeleteBranchBuilds (st : BranchState) (appID : Int) (branch : String) :
    BranchState :=
  (LoadPipelineBuildByApplicationAndBranch st.db appID branch).foldl
    (fun acc pb =>
      if pb.status ≠ Status.building then acc
      else DeletePipelineBuildByID (StopPipelineBuild acc pb.id) pb.id)
    st

/-- Build number, commit hash and branch of a pipeline build, as returned
by CurrentAndPreviousPipelineBuildNumberAndHash. -/
structure BuildNumberAndHash where
  buildNumber : Int
  hash : String
  branch : String
  deriving Repr, DecidableEq

/-- CurrentAndPreviousPipelineBuildNumberAndHash: the build of the triple
with the given build number, and the highest-numbered earlier build of
the triple on the same branch, none when there is no earlier one; the
whole query errs (none) when the current build is not found. -/
def CurrentAndPreviousPipelineBuildNumberAndHash (db : List BuildRow)
    (buildNumber pipelineID applicationID environmentID : Int) :
    Option (BuildNumberAndHash × Option BuildNumberAndHash) :=
  match db.find? (fun r =>
      r.buildNumber == buildNumber &&
      matchesTriple pipelineID applicationID environmentID r) with
  | none => none
  | some cur =>
    let prevRows := db.filter (fun r =>
      r.buildNumber < buildNumber &&
      matchesTriple pipelineID applicationID environmentID r &&
      r.vcsBranch == cur.vcsBranch)
    let prev := prevRows.foldl
      (fun (acc : Option BuildRow) r =>
        match acc with
        | none => some r
        | some m => if m.buildNumber < r.buildNumber then some r else some m)
      none
    some (⟨cur.buildNumber, cur.vcsHash, cur.vcsBranch⟩,
          prev.map (fun r => ⟨r.buildNumber, r.vcsHash, r.vcsBranch⟩))

/-- updatePipelineBuildCommits: persists the computed commits into the
build's commits column. -/
def updatePipelineBuildCommits (db : List BuildRow) (id : Int)
    (commits : List VCSCommit) : List BuildRow :=
  db.map (fun r => if r.id == id then { r with commits := commits } else r)

/-- The else branch of the commit computation: look the branch up, err
when the lookup fails or the branch has no latest commit, otherwise
return the single latest commit of the branch. -/
def branchLatest (client : VCSClient) (branch : String) :
    Option (List VCSCommit) :=
  match client.branchByName.lookup branch with
  | none => none
  | some br =>
    if br.latestCommit = "" then none
    else
      match client.commitByHash.lookup br.latestCommit with
      | some c => some [c]
      | none => none

/-- UpdatePipelineBuildCommits: computes the commit list of the build and
persists it.  With no repositories manager bound it returns no commits
and the unchanged table.  Otherwise it resolves the current and previous
(same-branch) build numbers and hashes and follows the code's chain:
previous exists with the same hash, empty diff; previous exists and both
hashes non-empty, the client range between them; current hash non-empty,
every commit up to it; otherwise the single latest commit of the branch.
VCS failures and a missing current build err (none). -/
def UpdatePipelineBuildCommits (db : List BuildRow) (hasRepoManager : Bool)
    (client : VCSClient) (pipelineID applicationID environmentID : Int)
    (pb : PipelineBuild) : Option (List VCSCommit × List BuildRow) :=
  if !hasRepoManager then some ([], db)
  else
    match CurrentAndPreviousPipelineBuildNumberAndHash db pb.buildNumber
        pipelineID applicationID environmentID with
    | none => none
    | some (cur, prev) => do
      let res ←
        match prev with
        | some pr =>
          if cur.hash = pr.hash then some []
          else if cur.hash ≠ "" ∧ pr.hash ≠ "" then
            client.commitRanges.lookup (cur.branch, pr.hash, cur.hash)
          else if cur.hash ≠ "" then
            client.commitRanges.lookup (cur.branch, "", cur.hash)
          else branchLatest client cur.branch
        | none =>
          if cur.hash ≠ "" then
            client.commitRanges.lookup (cur.branch, "", cur.hash)
          else branchLatest client cur.branch
      some (res, updatePipelineBuildCommits db pb.id res)

/-- sdk.StatusFromString: parses a stored status string, any unknown
string mapping to the unknown status. -/
def StatusFromString (s : String) : Status :=
  if s == "Building" then .building
  else if s == "Success" then .success
  else if s == "Fail" then .fail
  else if s == "Stopped" then .stopped
  else if s == "Skipped" then .skipped
  else if s == "Waiting" then .waiting
  else if s == "Disabled" then .disabled
  else .unknown

/-- The raw row handed to scanPipelineBuild (PipelineBuildDbResult),
restricted to the columns the scan logic branches on: the three JSON text
columns, the status string, and the id. -/
structure PipelineBuildDbResult where
  id : Int
  args : String
  stages : String
  commits : String
  status : String
  deriving Repr, DecidableEq

/-- The in-memory build produced by the scan, restricted to the fields
decoded from the row. -/
structure ScannedBuild where
  id : Int
  status : Status
  parameters : List Parameter
  stages : List Stage
  commits : List VCSCommit
  deriving Repr, DecidableEq

/-- scanPipelineBuild: builds the in-memory build from a scanned row.
json.Unmarshal (standard library) is modelled by the three decoder
arguments; a decoding failure for the args or stages column aborts with
an error, while the commits column is decoded only when it is a
non-empty string, an empty commits column yielding a build with no
commits rather than a decode error. -/
def scanPipelineBuild
    (decodeParams : String → Option (List Parameter))
    (decodeStages : String → Option (List Stage))
    (decodeCommits : String → Option (List VCSCommit))
    (r : PipelineBuildDbResult) : Option ScannedBuild := do
  let ps ← decodeParams r.args
  let ss ← decodeStages r.stages
  let cs ← if r.commits ≠ "" then decodeCommits r.commits else some []
  some { id := r.id, status := StatusFromString r.status,
         parameters := ps, stages := ss, commits := cs }

/-- All job ids appearing in a stage list (used to state which logs the
Success restart path deletes). -/
def stageJobIds (stages : List Stage) : List Int :=
  (stages.map (fun st => st.jobs.map (fun j => j.id))).flatten

/-- Job ids of the Fail jobs of the Fail stages (used to state which logs
the non-Success restart path deletes). -/
def failStageFailJobIds (stages : List Stage) : List Int :=
  ((stages.filter (fun st => st.status == Status.fail)).map
    (fun st => (st.jobs.filter (fun j => j.status == "Fail")).map
      (fun j => j.id))).flatten

/-! Concrete fixtures used by the witnesses and counterexamples. -/

/-- A manual trigger with no user, parent, branch or hash. -/
def cTrig : PipelineBuildTrigger := ⟨true, false, none, none, "", "", ""⟩

/-- A two-stage pipeline of type build. -/
def cPipe : Pipeline :=
  ⟨7, "build-pipe", "PROJ", "build", [],
   [⟨"st1", 1, true, Status.disabled, []⟩, ⟨"st2", 2, true, Status.disabled, []⟩]⟩

/-- A pipeline of type deployment. -/
def cPipeDeploy : Pipeline := ⟨8, "deploy-pipe", "PROJ", "deployment", [], []⟩

/-- An application with a bound repository full name. -/
def cApp : Application := ⟨42, "app", "repo/full"⟩

/-- An environment. -/
def cEnv : Environment := ⟨3, "env"⟩

/-- A project. -/
def cProj : Project := ⟨9, "PROJ"⟩

/-- The insertion-ordered keys resolved for a run of InsertPipelineBuild
with the fixtures above and no client: one possible map iteration. -/
def cOrder : List String :=
  ["cds.pipeline", "cds.project", "cds.application", "cds.environment",
   "cds.buildNumber", "cds.version", "git.branch"]

/-- A trigger carrying a parent build that lives in application 99. -/
def cTrigParent : PipelineBuildTrigger := ⟨false, false, none, some ⟨77, 99⟩, "", "", ""⟩

/-- A stored build row template; the fixtures below override fields. -/
def cRow : BuildRow :=
  { id := 1, applicationId := 42, pipelineId := 7, environmentId := 3,
    buildNumber := 1, version := 1, status := Status.success,
    args := [⟨"git.branch", "string", "main"⟩, ⟨"git.hash", "string", "a"⟩],
    stages := [], commits := [], startTime := 10, done := some 11,
    manualTrigger := true, scheduledTrigger := false, triggeredBy := none,
    parentPipelineBuildId := none, vcsBranch := "main", vcsHash := "a",
    vcsAuthor := "" }

/-- Earlier build on branch main (build number 1, hash a). -/
def rowMain1 : BuildRow := cRow

/-- Later build on branch dev (build number 2, hash c). -/
def rowDev2 : BuildRow :=
  { cRow with
    id := 2
    buildNumber := 2
    version := 2
    vcsBranch := "dev"
    vcsHash := "c"
    args := [⟨"git.branch", "string", "dev"⟩] }

/-- Latest build on branch main (build number 3, hash b), still building. -/
def rowMain3 : BuildRow :=
  { cRow with
    id := 3
    buildNumber := 3
    version := 3
    status := Status.building
    vcsHash := "b"
    done := none
    args := [⟨"git.branch", "string", "main"⟩, ⟨"git.hash", "string", "b"⟩] }

/-- Second build on branch main (build number 2, hash b), building. -/
def rowMain2 : BuildRow :=
  { cRow with
    id := 2
    buildNumber := 2
    version := 2
    status := Status.building
    vcsHash := "b"
    done := none }

/-- A client knowing the range main:a..b, the branch main with latest
commit l, and the commits l and b. -/
def cClient : VCSClient :=
  ⟨some ⟨"ssh://r", "http://r"⟩, [],
   [("l", ⟨"l", "alice", "latest"⟩), ("b", ⟨"b", "bob", "second"⟩)],
   [(("main", "a", "b"), [⟨"b", "bob", "second"⟩])],
   [("main", ⟨"main", true, "l"⟩)]⟩

/-- Branch-purge fixture: a finished build and a building build of the
same application and branch, both with logs and jobs. -/
def cBranchState : BranchState :=
  ⟨[cRow, { cRow with id := 2, status := Status.building, done := none }],
   [1, 2], [1, 2], []⟩

/-- Restart fixture: a failed build whose Fail stage holds one Success
job (id 1, with a log) and one Fail job (id 2, with a log), after a
Success stage whose job 3 also has a log. -/
def cRestartFail : RestartState :=
  { db := []
    pb := { id := 10
            applicationId := 42
            pipelineId := 7
            environmentId := 3
            buildNumber := 4
            version := 4
            status := Status.fail
            parameters := [⟨"git.branch", "string", "main"⟩]
            stages := [⟨"s1", 1, true, Status.success, [⟨3, "Success"⟩]⟩,
                       ⟨"s2", 2, true, Status.fail,
                        [⟨1, "Success"⟩, ⟨2, "Fail"⟩]⟩]
            commits := []
            startTime := 10
            done := some 20
            trigger := cTrig }
    logs := [1, 2, 3]
    artifacts := [8]
    testResults := [9] }

/-- Restart fixture: the same build finished in Success. -/
def cRestartSuccess : RestartState :=
  { cRestartFail with
    pb := { cRestartFail.pb with
            status := Status.success
            stages := [⟨"s1", 1, true, Status.success, [⟨3, "Success"⟩]⟩,
                       ⟨"s2", 2, true, Status.success, [⟨1, "Success"⟩, ⟨2, "Success"⟩]⟩] } }

/-! Helper lemmas about the embedded store operations. -/

theorem mem_insertSorted {le : BuildRow → BuildRow → Bool} {r x : BuildRow} :
    ∀ {l : List BuildRow}, x ∈ insertSorted le r l ↔ x = r ∨ x ∈ l := by
  intro l
  induction l with
  | nil => simp [insertSorted]
  | cons a t ih =>
    simp only [insertSorted]
    split
    · simp only [List.mem_cons, ih]
      tauto
    · simp only [List.mem_cons]

theorem mem_sortRows {le : BuildRow → BuildRow → Bool} {x : BuildRow} :
    ∀ {l : List BuildRow}, x ∈ sortRows le l ↔ x ∈ l := by
  intro l
  induction l with
  | nil => simp [sortRows]
  | cons a t ih =>
    show x ∈ insertSorted le a (sortRows le t) ↔ _
    rw [mem_insertSorted]
    simp only [List.mem_cons]
    rw [ih]

theorem lastBuildNumberAux_ge {r : BuildRow} :
    ∀ {l : List BuildRow}, r ∈ l →
      ∃ m, lastBuildNumberAux l = some m ∧ r.buildNumber ≤ m := by
  intro l
  induction l with
  | nil => simp
  | cons a t ih =>
    intro hr
    rcases List.mem_cons.1 hr with h | h
    · subst h
      cases ht : lastBuildNumberAux t with
      | none => exact ⟨r.buildNumber, by simp [lastBuildNumberAux, ht], le_refl _⟩
      | some m =>
        exact ⟨max r.buildNumber m, by simp [lastBuildNumberAux, ht], le_max_left _ _⟩
    · obtain ⟨m, hm, hle⟩ := ih h
      exact ⟨max a.buildNumber m, by simp [lastBuildNumberAux, hm],
        le_trans hle (le_max_right _ _)⟩

theorem GetLastBuildNumber_ge {db : List BuildRow} {pipID appID envID : Int}
    {r : BuildRow} (hr : r ∈ db)
    (hm : matchesTriple pipID appID envID r = true) :
    r.buildNumber ≤ GetLastBuildNumber db pipID appID envID := by
  have hmem : r ∈ db.filter (matchesTriple pipID appID envID) :=
    List.mem_filter.2 ⟨hr, hm⟩
  obtain ⟨m, hsome, hle⟩ := lastBuildNumberAux_ge hmem
  unfold GetLastBuildNumber
  rw [hsome]
  exact hle

theorem GetLastBuildNumber_empty {db : List BuildRow}
    {pipID appID envID : Int}
    (h : ∀ r ∈ db, matchesTriple pipID appID envID r = false) :
    GetLastBuildNumber db pipID appID envID = 0 := by
  have : db.filter (matchesTriple pipID appID envID) = [] := by
    apply List.filter_eq_nil_iff.2
    intro a ha
    simp [h a ha]
  unfold GetLastBuildNumber
  rw [this]
  rfl

/-! C10: scan behavior on the JSON columns. -/

/-- C10: for every stored row, scanPipelineBuild returns an error when the
args column or the stages column fails to decode, while a commits column
equal to the empty string is accepted without any decode attempt and
yields a build with no commits. -/
theorem scanPipelineBuild_decode_behavior
    (decodeParams : String → Option (List Parameter))
    (decodeStages : String → Option (List Stage))
    (decodeCommits : String → Option (List VCSCommit))
    (r : PipelineBuildDbResult) :
    (decodeParams r.args = none →
      scanPipelineBuild decodeParams decodeStages decodeCommits r = none) ∧
    (decodeStages r.stages = none →
      scanPipelineBuild decodeParams decodeStages decodeCommits r = none) ∧
    (∀ ps ss, r.commits = "" → decodeParams r.args = some ps →
      decodeStages r.stages = some ss →
      scanPipelineBuild decodeParams decodeStages decodeCommits r =
        some ⟨r.id, StatusFromString r.status, ps, ss, []⟩) := by
  refine ⟨fun h => ?_, fun h => ?_, fun ps ss hc hp hs => ?_⟩
  · simp [scanPipelineBuild, h]
  · cases hp : decodeParams r.args <;> simp [scanPipelineBuild, hp, h]
  · simp [scanPipelineBuild, hp, hs, hc]

/-- Witness for C10: concrete decoders and a row with an empty commits
column; the failing commits decoder is never consulted. -/
theorem scanPipelineBuild_decode_behavior_witness :
    scanPipelineBuild (fun _ => some []) (fun _ => some [])
      (fun _ => none) ⟨5, "[]", "[]", "", "Building"⟩ =
      some ⟨5, StatusFromString "Building", [], [], []⟩ :=
  (scanPipelineBuild_decode_behavior (fun _ => some []) (fun _ => some [])
    (fun _ => none) ⟨5, "[]", "[]", "", "Building"⟩).2.2 [] [] rfl rfl rfl

/-! C6: the commit-diff case analysis. -/

/-- C6: UpdatePipelineBuildCommits computes the commit list by case
analysis on the current and previous build of the triple on the same
branch, cases read in order (first match wins, mirroring the claim's
listing): a previous build with the same hash gives the empty list; both
hashes known and different give the client's range between them; no
previous build and a non-empty current hash give every commit up to it;
an empty current hash gives the single latest commit of the branch.  In
every case the result is persisted into the build's commits column. -/
theorem UpdatePipelineBuildCommits_case_analysis
    (db : List BuildRow) (client : VCSClient)
    (pipelineID applicationID environmentID : Int) (pb : PipelineBuild)
    (cur : BuildNumberAndHash) (prev : Option BuildNumberAndHash)
    (hq : CurrentAndPreviousPipelineBuildNumberAndHash db pb.buildNumber
      pipelineID applicationID environmentID = some (cur, prev)) :
    (∀ pr, prev = some pr → cur.hash = pr.hash →
      UpdatePipelineBuildCommits db true client pipelineID applicationID
        environmentID pb = some ([], updatePipelineBuildCommits db pb.id [])) ∧
    (∀ pr cs, prev = some pr → cur.hash ≠ pr.hash → cur.hash ≠ "" →
      pr.hash ≠ "" →
      client.commitRanges.lookup (cur.branch, pr.hash, cur.hash) = some cs →
      UpdatePipelineBuildCommits db true client pipelineID applicationID
        environmentID pb = some (cs, updatePipelineBuildCommits db pb.id cs)) ∧
    (∀ cs, prev = none → cur.hash ≠ "" →
      client.commitRanges.lookup (cur.branch, "", cur.hash) = some cs →
      UpdatePipelineBuildCommits db true client pipelineID applicationID
        environmentID pb = some (cs, updatePipelineBuildCommits db pb.id cs)) ∧
    (∀ br c, cur.hash = "" → (∀ pr, prev = some pr → pr.hash ≠ "") →
      client.branchByName.lookup cur.branch = some br →
      br.latestCommit ≠ "" →
      client.commitByHash.lookup br.latestCommit = some c →
      UpdatePipelineBuildCommits db true client pipelineID applicationID
        environmentID pb =
        some ([c], updatePipelineBuildCommits db pb.id [c])) := by
  refine ⟨fun pr hpr heq => ?_, fun pr cs hpr hne hc hp hr => ?_,
    fun cs hpr hc hr => ?_, fun br c hc hpr hbr hl hcm => ?_⟩
  · subst hpr
    simp [UpdatePipelineBuildCommits, hq, heq]
  · subst hpr
    simp [UpdatePipelineBuildCommits, hq, hne, hc, hp, hr]
  · subst hpr
    simp [UpdatePipelineBuildCommits, hq, hc, hr]
  · cases prev with
    | none => simp [UpdatePipelineBuildCommits, hq, hc, branchLatest, hbr, hl, hcm]
    | some pr =>
      have hprh : pr.hash ≠ "" := hpr pr rfl
      have hne : cur.hash ≠ pr.hash := by
        rw [hc]
        exact fun h => hprh h.symm
      have hne' : ("" : String) ≠ pr.hash := fun h => hprh h.symm
      simp [UpdatePipelineBuildCommits, hq, hne, hne', hc, branchLatest, hbr, hl, hcm]

/-- Witness for C6: a two-build history on branch main with hashes a then
b; the range main:a..b known to the client is computed and persisted. -/
theorem UpdatePipelineBuildCommits_case_analysis_witness :
    UpdatePipelineBuildCommits [rowMain1, rowMain2] true cClient 7 42 3
      (scanRow rowMain2) =
      some ([⟨"b", "bob", "second"⟩],
        updatePipelineBuildCommits [rowMain1, rowMain2] (scanRow rowMain2).id
          [⟨"b", "bob", "second"⟩]) :=
  (UpdatePipelineBuildCommits_case_analysis [rowMain1, rowMain2] cClient
    7 42 3 (scanRow rowMain2) ⟨2, "b", "main"⟩ (some ⟨1, "a", "main"⟩)
    (by decide)).2.1 ⟨1, "a", "main"⟩ [⟨"b", "bob", "second"⟩] rfl
    (by decide) (by decide) (by decide) (by decide)

/-! C5: the branch purge. -/

/-- C5: evaluation of DeleteBranchBuilds at the failing input.  Of the
two stored builds of application 42 on branch main, only the Building one
(id 2) is stopped and then deleted; the loop's continue skips the
finished build (id 1), which survives the purge together with its logs
and jobs — although the function's own doc comment ("deletes all
pipelines build for a given branch") and the claim say every matching
build is deleted. -/
theorem DeleteBranchBuilds_skips_finished :
    DeleteBranchBuilds cBranchState 42 "main" = ⟨[cRow], [1], [1], [2]⟩ := by
  decide

/-! C7: event publication on status update. -/

/-- The table written by UpdatePipelineBuildStatusAndStage. -/
theorem UPBSS_db_eq (db : List BuildRow) (pb : PipelineBuild) (ns : Status) :
    (UpdatePipelineBuildStatusAndStage db pb ns).db =
      db.map (fun r => if r.id == pb.id then
        { r with status := ns, stages := pb.stages, done := pb.done } else r) :=
  rfl

/-- The build returned by UpdatePipelineBuildStatusAndStage. -/
theorem UPBSS_pb_eq (db : List BuildRow) (pb : PipelineBuild) (ns : Status) :
    (UpdatePipelineBuildStatusAndStage db pb ns).pb = { pb with status := ns } :=
  rfl

/-- The event published by UpdatePipelineBuildStatusAndStage. -/
theorem UPBSS_event_eq (db : List BuildRow) (pb : PipelineBuild) (ns : Status) :
    (UpdatePipelineBuildStatusAndStage db pb ns).event =
      if pb.status ≠ ns then
        some ⟨{ pb with status := ns },
          pickPrevious (LoadPipelineBuildsByApplicationAndPipeline
            (UpdatePipelineBuildStatusAndStage db pb ns).db
            pb.applicationId pb.pipelineId pb.environmentId 2 ""
            (dotGitBranch pb.parameters))⟩
      else none :=
  rfl

theorem pickPrevious_mem {history : List PipelineBuild}
    {prev : PipelineBuild} (h : pickPrevious history = some prev) :
    prev ∈ history := by
  unfold pickPrevious at h
  split at h
  next a b =>
    have he := Option.some.inj h
    subst he
    by_cases hc : b.buildNumber < a.buildNumber
    · simp [hc]
    · simp [hc]
  next => exact absurd h (by simp)

theorem mem_of_load {db : List BuildRow} {appID pipID envID : Int}
    {limit : Nat} {status branch : String} {x : PipelineBuild}
    (hx : x ∈ LoadPipelineBuildsByApplicationAndPipeline db appID pipID
      envID limit status branch) :
    ∃ row ∈ db, scanRow row = x ∧ row.applicationId = appID ∧
      row.pipelineId = pipID ∧ row.environmentId = envID := by
  unfold LoadPipelineBuildsByApplicationAndPipeline at hx
  obtain ⟨row, hrow, hscan⟩ := List.mem_map.1 hx
  have h1 : row ∈ sortRows pbBefore _ := List.mem_of_mem_take hrow
  have h2 := mem_sortRows.1 h1
  have h3 := List.mem_filter.1 h2
  have h4 := h3.2
  simp only [Bool.and_eq_true, beq_iff_eq] at h4
  exact ⟨row, h3.1, hscan, h4.1.1.1.1, h4.1.1.1.2, h4.1.1.2⟩

/-- C7 (amended): UpdatePipelineBuildStatusAndStage publishes an event
exactly when the new status differs from the build's current status, and
the previous build carried by the event is a stored build of the same
application, pipeline and environment as the updated build — but not
necessarily of the same branch: the branch restriction reads the
".git.branch" parameter (leading dot), a name insertion never produces
(it stores "git.branch"), so the history is in general unfiltered. -/
theorem UpdatePipelineBuildStatusAndStage_publish (db : List BuildRow)
    (pb : PipelineBuild) (newStatus : Status) :
    ((UpdatePipelineBuildStatusAndStage db pb newStatus).event = none ↔
      pb.status = newStatus) ∧
    (∀ ev prev,
      (UpdatePipelineBuildStatusAndStage db pb newStatus).event = some ev →
      ev.previous = some prev →
      ∃ row ∈ (UpdatePipelineBuildStatusAndStage db pb newStatus).db,
        scanRow row = prev ∧ row.applicationId = pb.applicationId ∧
        row.pipelineId = pb.pipelineId ∧
        row.environmentId = pb.environmentId) := by
  constructor
  · rw [UPBSS_event_eq]
    by_cases h : pb.status = newStatus <;> simp [h]
  · intro ev prev hev hprev
    rw [UPBSS_event_eq] at hev
    by_cases h : pb.status = newStatus
    · simp [h] at hev
    · simp only [h, ne_eq, not_false_iff, if_true, if_pos] at hev
      have he := Option.some.inj hev
      subst he
      simp only at hprev
      have hmem := pickPrevious_mem hprev
      exact mem_of_load hmem

/-- Witness for C7: a concrete update from Building to Success; the
event is published and its previous build is a stored row of the same
triple. -/
theorem UpdatePipelineBuildStatusAndStage_publish_witness :
    ∃ row ∈ (UpdatePipelineBuildStatusAndStage [rowMain1, rowDev2, rowMain3]
        (scanRow rowMain3) Status.success).db,
      scanRow row = scanRow rowDev2 ∧
      row.applicationId = (scanRow rowMain3).applicationId ∧
      row.pipelineId = (scanRow rowMain3).pipelineId ∧
      row.environmentId = (scanRow rowMain3).environmentId :=
  (UpdatePipelineBuildStatusAndStage_publish [rowMain1, rowDev2, rowMain3]
    (scanRow rowMain3) Status.success).2
    ⟨{ scanRow rowMain3 with status := Status.success }, some (scanRow rowDev2)⟩
    (scanRow rowDev2) (by decide) rfl

/-- C7 counterexample: in a table where the updated build (id 3, branch
main) has an earlier build on its own branch (id 1, branch main), the
published event instead carries the branch-dev build (id 2) as previous,
because the branch restriction reads the never-set ".git.branch"
parameter and the unfiltered history ranks id 2 ahead of id 1. -/
theorem UpdatePipelineBuildStatusAndStage_branch_refuted :
    ((UpdatePipelineBuildStatusAndStage [rowMain1, rowDev2, rowMain3]
        (scanRow rowMain3) Status.success).event.map
      (fun ev => ev.previous.map (fun q => (q.id, q.trigger.vcsChangesBranch)))) =
      some (some (2, "dev")) ∧
    (scanRow rowMain3).trigger.vcsChangesBranch = "main" ∧
    rowMain1 ∈ [rowMain1, rowDev2, rowMain3] ∧
    rowMain1.vcsBranch = "main" ∧
    rowMain1.buildNumber < rowMain3.buildNumber ∧
    rowMain1.applicationId = rowMain3.applicationId ∧
    rowMain1.pipelineId = rowMain3.pipelineId ∧
    rowMain1.environmentId = rowMain3.environmentId := by
  decide


/-! C4: restart semantics. -/

theorem decide_ne_comm (x y : Int) : (decide (x ≠ y)) = !(y == x) := by
  by_cases h : x = y
  · subst h
    simp
  · simp [h, Ne.symm h]

theorem any_map_comp {α β : Type} (f : α → β) (l : List α) (p : β → Bool) :
    (l.map f).any p = l.any (fun a => p (f a)) := by
  induction l with
  | nil => rfl
  | cons a t ih => simp only [List.map_cons, List.any_cons, ih]

theorem foldl_deleteLogs_all (jobs : List PBJob) :
    ∀ logs : List Int,
      jobs.foldl (fun l j => DeleteBuildLogs j.id l) logs =
        logs.filter (fun x => !(jobs.any (fun j => j.id == x))) := by
  induction jobs with
  | nil => intro logs; simp
  | cons j t ih =>
    intro logs
    rw [List.foldl_cons, ih]
    simp only [DeleteBuildLogs]
    rw [List.filter_filter]
    apply List.filter_congr
    intro x _
    rw [List.any_cons, Bool.not_or, Bool.and_comm]
    rw [decide_ne_comm x j.id]

theorem foldl_deleteLogs (p : PBJob → Bool) (jobs : List PBJob) :
    ∀ logs : List Int,
      jobs.foldl (fun l j => if p j then DeleteBuildLogs j.id l else l) logs =
        logs.filter (fun x => !((jobs.filter p).any (fun j => j.id == x))) := by
  induction jobs with
  | nil => intro logs; simp
  | cons j t ih =>
    intro logs
    rw [List.foldl_cons]
    by_cases hp : p j
    · rw [if_pos hp, ih]
      simp only [DeleteBuildLogs]
      rw [List.filter_filter]
      apply List.filter_congr
      intro x _
      rw [List.filter_cons_of_pos hp, List.any_cons, Bool.not_or, Bool.and_comm]
      rw [decide_ne_comm x j.id]
    · rw [if_neg hp, ih, List.filter_cons_of_neg hp]

theorem restartSuccessStages_logs (stages : List Stage) :
    ∀ (i : Nat) (logs : List Int),
      (restartSuccessStages i stages logs).2 =
        logs.filter (fun x => !((stageJobIds stages).any (fun y => y == x))) := by
  induction stages with
  | nil => intro i logs; simp [restartSuccessStages, stageJobIds]
  | cons st t ih =>
    intro i logs
    show (restartSuccessStages (i + 1) t
        (st.jobs.foldl (fun l j => DeleteBuildLogs j.id l) logs)).2 = _
    rw [ih, foldl_deleteLogs_all, List.filter_filter]
    apply List.filter_congr
    intro x _
    simp only [stageJobIds, List.map_cons, List.flatten_cons, List.any_append,
      Bool.not_or]
    rw [any_map_comp, Bool.and_comm]

theorem restartSuccessStages_shape_tail (t : List Stage) :
    ∀ (i : Nat) (logs : List Int), i ≠ 0 →
      (restartSuccessStages i t logs).1 =
        t.map (fun st => { st with jobs := [] }) := by
  induction t with
  | nil => intro i logs _; simp [restartSuccessStages]
  | cons st rest ih =>
    intro i logs hi
    simp only [restartSuccessStages]
    rw [if_neg hi, List.map_cons]
    exact congrArg₂ List.cons rfl (ih (i + 1) _ (by omega))

theorem restartSuccessStages_shape (stages : List Stage) (logs : List Int) :
    (restartSuccessStages 0 stages logs).1 =
      (match stages with
       | [] => []
       | st :: rest => { st with status := Status.waiting, jobs := [] } ::
           rest.map (fun x => { x with jobs := [] })) := by
  cases stages with
  | nil => rfl
  | cons st rest =>
    simp only [restartSuccessStages]
    rw [if_pos trivial]
    exact congrArg₂ List.cons rfl (restartSuccessStages_shape_tail rest 1 _ (by omega))

theorem restartFailStages_logs (stages : List Stage) :
    ∀ logs : List Int,
      (restartFailStages stages logs).2 =
        logs.filter (fun x => !((failStageFailJobIds stages).any (fun y => y == x))) := by
  induction stages with
  | nil => intro logs; simp [restartFailStages, failStageFailJobIds]
  | cons st t ih =>
    intro logs
    by_cases hs : st.status = Status.fail
    · have hs' : ¬st.status ≠ Status.fail := by simp [hs]
      simp only [restartFailStages]
      rw [if_neg hs']
      simp only []
      rw [ih, foldl_deleteLogs (fun j => j.status == Status.fail.toStr) st.jobs,
        List.filter_filter]
      apply List.filter_congr
      intro x _
      have hcons : List.filter (fun s => s.status == Status.fail) (st :: t) =
          st :: List.filter (fun s => s.status == Status.fail) t :=
        List.filter_cons_of_pos (by simp [hs])
      simp only [failStageFailJobIds, hcons, List.map_cons, List.flatten_cons,
        List.any_append, Bool.not_or]
      rw [any_map_comp, Bool.and_comm]
      rfl
    · simp only [restartFailStages]
      rw [if_pos hs]
      simp only []
      rw [ih]
      have hcons : List.filter (fun s => s.status == Status.fail) (st :: t) =
          List.filter (fun s => s.status == Status.fail) t :=
        List.filter_cons_of_neg (by simp [hs])
      simp only [failStageFailJobIds, hcons]

theorem restartFailStages_shape (stages : List Stage) :
    ∀ logs : List Int,
      (restartFailStages stages logs).1 =
        stages.map (fun st => if st.status = Status.fail then
          { st with status := Status.waiting, jobs := [] } else st) := by
  induction stages with
  | nil => intro logs; simp [restartFailStages]
  | cons st t ih =>
    intro logs
    by_cases hs : st.status = Status.fail
    · have hs' : ¬st.status ≠ Status.fail := by simp [hs]
      simp only [restartFailStages, List.map_cons]
      rw [if_neg hs', if_pos hs]
      exact congrArg₂ List.cons rfl (ih _)
    · simp only [restartFailStages, List.map_cons]
      rw [if_pos hs, if_neg hs]
      exact congrArg₂ List.cons rfl (ih _)

/-- C4 (amended): RestartPipelineBuild on a Success build clears the job
list of every stage, deletes the logs of all of the build's jobs, resets
the first stage to Waiting, deletes the build's artifacts and test
results, clears done and sets the build Building; on a Fail build it
resets exactly the Fail stages to Waiting and clears their job lists,
deleting the logs of only those of their jobs whose status is Fail —
Success stages keep their jobs, and the logs of non-Fail jobs survive
even inside reset stages — clears done and sets the build Building. -/
theorem RestartPipelineBuild_resets (s : RestartState) (now : Int) :
    (s.pb.status = Status.success →
      (RestartPipelineBuild s now).1.pb.status = Status.building ∧
      (RestartPipelineBuild s now).1.pb.done = none ∧
      (RestartPipelineBuild s now).1.artifacts = [] ∧
      (RestartPipelineBuild s now).1.testResults = [] ∧
      (RestartPipelineBuild s now).1.pb.stages =
        (match s.pb.stages with
         | [] => []
         | st :: rest => { st with status := Status.waiting, jobs := [] } ::
             rest.map (fun x => { x with jobs := [] })) ∧
      (RestartPipelineBuild s now).1.logs =
        s.logs.filter (fun x => !((stageJobIds s.pb.stages).any (fun y => y == x)))) ∧
    (s.pb.status = Status.fail →
      (RestartPipelineBuild s now).1.pb.status = Status.building ∧
      (RestartPipelineBuild s now).1.pb.done = none ∧
      (RestartPipelineBuild s now).1.artifacts = s.artifacts ∧
      (RestartPipelineBuild s now).1.testResults = s.testResults ∧
      (RestartPipelineBuild s now).1.pb.stages =
        s.pb.stages.map (fun st => if st.status = Status.fail then
          { st with status := Status.waiting, jobs := [] } else st) ∧
      (RestartPipelineBuild s now).1.logs =
        s.logs.filter (fun x => !((failStageFailJobIds s.pb.stages).any (fun y => y == x)))) := by
  constructor
  · intro h
    unfold RestartPipelineBuild
    rw [if_pos h]
    refine ⟨rfl, rfl, rfl, rfl, ?_, ?_⟩
    · exact restartSuccessStages_shape s.pb.stages s.logs
    · exact restartSuccessStages_logs s.pb.stages 0 s.logs
  · intro h
    have h' : s.pb.status ≠ Status.success := by
      rw [h]
      intro hc
      exact Status.noConfusion hc
    unfold RestartPipelineBuild
    rw [if_neg h']
    refine ⟨rfl, rfl, rfl, rfl, ?_, ?_⟩
    · exact restartFailStages_shape s.pb.stages s.logs
    · exact restartFailStages_logs s.pb.stages s.logs

/-- Witness for C4 at the two restart fixtures: the Success restart
clears every log of the build, the Fail restart deletes exactly the logs
of the Fail jobs of the Fail stage. -/
theorem RestartPipelineBuild_resets_witness :
    (RestartPipelineBuild cRestartSuccess 50).1.logs =
      cRestartSuccess.logs.filter
        (fun x => !((stageJobIds cRestartSuccess.pb.stages).any (fun y => y == x))) ∧
    (RestartPipelineBuild cRestartFail 50).1.logs =
      cRestartFail.logs.filter
        (fun x => !((failStageFailJobIds cRestartFail.pb.stages).any (fun y => y == x))) :=
  ⟨((RestartPipelineBuild_resets cRestartSuccess 50).1 (by decide)).2.2.2.2.2,
   ((RestartPipelineBuild_resets cRestartFail 50).2 (by decide)).2.2.2.2.2⟩

/-- C4 counterexample: restarting the Fail fixture resets the Fail stage
s2 and clears its job list, yet the log of its Success job (id 1)
survives ([1, 3] remain: only the Fail job's log, id 2, was deleted) —
contradicting the claim that the reset stages' jobs have their logs
cleared. -/
theorem RestartPipelineBuild_fail_logs_refuted :
    cRestartFail.pb.status = Status.fail ∧
    cRestartFail.logs = [1, 2, 3] ∧
    (RestartPipelineBuild cRestartFail 50).1.pb.stages =
      [⟨"s1", 1, true, Status.success, [⟨3, "Success"⟩]⟩,
       ⟨"s2", 2, true, Status.waiting, []⟩] ∧
    (RestartPipelineBuild cRestartFail 50).1.logs = [1, 3] := by
  decide


/-! Structure of a successful InsertPipelineBuild run. -/

theorem foldl_max_init_le (l : List BuildRow) :
    ∀ init : Int, init ≤ l.foldl (fun m r => max m r.id) init := by
  induction l with
  | nil => intro init; exact le_refl _
  | cons a t ih => intro init; exact le_trans (le_max_left _ _) (ih _)

theorem foldl_max_mem_le {r : BuildRow} :
    ∀ {l : List BuildRow}, r ∈ l →
      ∀ init : Int, r.id ≤ l.foldl (fun m r => max m r.id) init := by
  intro l
  induction l with
  | nil => simp
  | cons a t ih =>
    intro hr init
    rcases List.mem_cons.1 hr with h | h
    · subst h
      exact le_trans (le_max_right _ _) (foldl_max_init_le t _)
    · exact ih h _

theorem id_lt_nextRowId {db : List BuildRow} {r : BuildRow} (h : r ∈ db) :
    r.id < nextRowId db := by
  have := foldl_max_mem_le h (0 : Int)
  unfold nextRowId
  omega

theorem map_noop_of_fix (db : List BuildRow) (f : BuildRow → BuildRow)
    (h : ∀ r ∈ db, f r = r) : db.map f = db := by
  conv_rhs => rw [show db = db.map id from (List.map_id db).symm]
  exact List.map_congr_left h

theorem map_updateArgs_append (db : List BuildRow) (row : BuildRow)
    (a2 : List Parameter) (hrow : row.id = nextRowId db) :
    (db ++ [row]).map (fun r => if r.id == nextRowId db then
        { r with args := a2 } else r) =
      db ++ [{ row with args := a2 }] := by
  rw [List.map_append]
  congr 1
  · apply map_noop_of_fix
    intro r hr
    have hlt := id_lt_nextRowId hr
    have hne : (r.id == nextRowId db) = false := by
      simp only [beq_eq_false_iff_ne, ne_eq]
      omega
    simp [hne]
  · simp [hrow]

/-- Decomposition of a successful InsertPipelineBuild run: the parameter
phase succeeded, the resolved map and the serialized list are recorded in
the result, the new build number is the stored maximum plus one, the
version follows the reset rule, and the resulting table is the input
table with exactly one appended row — the new build, Building, with done
set to the insertion time, carrying the serialized parameters (possibly
extended by git.previousHash) — all within the one atomic step that also
read the maximum. -/
theorem InsertPipelineBuild_run (db : List BuildRow) (project : Project)
    (p : Pipeline) (app : Application) (client : Option VCSClient)
    (appArgs params0 : List Parameter) (env : Environment) (version : Int)
    (trigger : PipelineBuildTrigger) (now : Int) (order : List String)
    (res : InsertResult)
    (h : InsertPipelineBuild db project p app client appArgs params0 env
      version trigger now order = some res) :
    ∃ params trig row,
      insertPBParams p app env (GetLastBuildNumber db p.id app.id env.id + 1)
        (resolvedVersion version trigger app p
          (GetLastBuildNumber db p.id app.id env.id + 1))
        client trigger params0 = some (params, trig) ∧
      res.vars = ProcessPipelineBuildVariables p.parameter appArgs params ∧
      res.argsInsert = iterateMap res.vars order ∧
      res.newId = nextRowId db ∧
      res.pb.buildNumber = GetLastBuildNumber db p.id app.id env.id + 1 ∧
      res.pb.version = resolvedVersion version trigger app p
        (GetLastBuildNumber db p.id app.id env.id + 1) ∧
      res.pb.parameters = params ∧
      res.db = db ++ [row] ∧
      row.id = res.newId ∧
      (row.args = res.argsInsert ∨
        ∃ ph, row.args = AddParameter res.argsInsert "git.previousHash" "string" ph) ∧
      row.buildNumber = res.pb.buildNumber ∧
      row.version = res.pb.version ∧
      row.status = Status.building ∧
      row.startTime = now ∧
      row.done = some now ∧
      matchesTriple p.id app.id env.id row = true ∧
      row.stages = snapshotStages p.stages := by
  unfold InsertPipelineBuild at h
  dsimp only at h
  split at h
  next => exact Option.noConfusion h
  next params trig hp =>
    simp only [Option.some.injEq] at h
    subst h
    dsimp only [insertPipelineBuild]
    refine ⟨params, trig, ?_⟩
    split
    next hP =>
      exact ⟨_, hp, rfl, rfl, rfl, rfl, rfl, rfl, rfl, rfl, Or.inl rfl, rfl,
        rfl, rfl, rfl, rfl, by simp [matchesTriple], rfl⟩
    next prev hP =>
      split
      next hne =>
        refine ⟨_, hp, rfl, rfl, rfl, rfl, rfl, rfl,
          map_updateArgs_append db _ _ rfl, rfl,
          Or.inr ⟨_, rfl⟩, rfl, rfl, rfl, rfl, rfl, ?_, rfl⟩
        simp [matchesTriple]
      next hne =>
        exact ⟨_, hp, rfl, rfl, rfl, rfl, rfl, rfl, rfl, rfl, Or.inl rfl, rfl,
          rfl, rfl, rfl, rfl, by simp [matchesTriple], rfl⟩


/-! C1: build-number allocation. -/

/-- C1: for every successful InsertPipelineBuild call, the created row
carries build number GetLastBuildNumber + 1, where GetLastBuildNumber is
an upper bound of every stored build number of the (pipeline,
application, environment) triple and is 0 when no prior build exists (so
the first build gets number 1); the read of the maximum and the insert
form one atomic step of the model — the transaction — whose effect on
the table is exactly the appending of the single new row. -/
theorem InsertPipelineBuild_allocates_next (db : List BuildRow)
    (project : Project) (p : Pipeline) (app : Application)
    (client : Option VCSClient) (appArgs params0 : List Parameter)
    (env : Environment) (version : Int) (trigger : PipelineBuildTrigger)
    (now : Int) (order : List String) (res : InsertResult)
    (h : InsertPipelineBuild db project p app client appArgs params0 env
      version trigger now order = some res) :
    (∃ row, res.db = db ++ [row] ∧ row.id = res.newId ∧
      row.buildNumber = GetLastBuildNumber db p.id app.id env.id + 1 ∧
      matchesTriple p.id app.id env.id row = true) ∧
    (∀ r ∈ db, matchesTriple p.id app.id env.id r = true →
      r.buildNumber ≤ GetLastBuildNumber db p.id app.id env.id) ∧
    ((∀ r ∈ db, matchesTriple p.id app.id env.id r = false) →
      GetLastBuildNumber db p.id app.id env.id = 0) := by
  obtain ⟨params, trig, row, hp, hvars, hargs, hnew, hbn, hver, hpar, hdb,
    hid, hargsrow, hrbn, hrver, hrst, hrstart, hrdone, hrtriple, hrstages⟩ :=
    InsertPipelineBuild_run db project p app client appArgs params0 env
      version trigger now order res h
  refine ⟨⟨row, hdb, hid, ?_, hrtriple⟩, ?_, ?_⟩
  · rw [hrbn, hbn]
  · intro r hr hm
    exact GetLastBuildNumber_ge hr hm
  · intro hall
    exact GetLastBuildNumber_empty hall

/-- Witness for C1: a concrete run on an empty table; the single created
row gets build number 0 + 1 = 1. -/
theorem InsertPipelineBuild_allocates_next_witness :
    ∃ res, InsertPipelineBuild [] cProj cPipe cApp none [] [] cEnv 0 cTrig
        100 cOrder = some res ∧
      ∃ row, res.db = [] ++ [row] ∧ row.id = res.newId ∧
        row.buildNumber = GetLastBuildNumber [] cPipe.id cApp.id cEnv.id + 1 ∧
        matchesTriple cPipe.id cApp.id cEnv.id row = true := by
  have hsome : (InsertPipelineBuild [] cProj cPipe cApp none [] [] cEnv 0
      cTrig 100 cOrder).isSome = true := by decide
  obtain ⟨res, hres⟩ := Option.isSome_iff_exists.1 hsome
  exact ⟨res, hres, (InsertPipelineBuild_allocates_next [] cProj cPipe cApp
    none [] [] cEnv 0 cTrig 100 cOrder res hres).1⟩

/-! C2: version resolution. -/

/-- C2 (amended): for every successful insert with positive supplied
version, the stored version equals the supplied version exactly when the
build has a parent and it is not the case that the parent lives in
another application while the pipeline type is "build"; in the remaining
cases (no parent; or foreign parent on a type-"build" pipeline) the
version equals the allocated build number.  In particular a child of a
same-application parent inherits the version whatever the pipeline type,
and a child of a foreign parent inherits it on non-"build" pipelines —
wider than the claim's same-application-and-non-build cell. -/
theorem InsertPipelineBuild_version_rule (db : List BuildRow)
    (project : Project) (p : Pipeline) (app : Application)
    (client : Option VCSClient) (appArgs params0 : List Parameter)
    (env : Environment) (version : Int) (trigger : PipelineBuildTrigger)
    (now : Int) (order : List String) (res : InsertResult)
    (h : InsertPipelineBuild db project p app client appArgs params0 env
      version trigger now order = some res) (hpos : 0 < version) :
    (trigger.parentPipelineBuild = none →
      res.pb.version = res.pb.buildNumber) ∧
    (∀ par, trigger.parentPipelineBuild = some par →
      ((app.id ≠ par.applicationId ∧ p.ptype = "build") →
        res.pb.version = res.pb.buildNumber) ∧
      (¬(app.id ≠ par.applicationId ∧ p.ptype = "build") →
        res.pb.version = version)) := by
  obtain ⟨params, trig, row, hp, hvars, hargs, hnew, hbn, hver, hpar, hdb,
    hid, hargsrow, hrbn, hrver, hrst, hrstart, hrdone, hrtriple, hrstages⟩ :=
    InsertPipelineBuild_run db project p app client appArgs params0 env
      version trigger now order res h
  have hv0 : ¬(version ≤ 0) := by omega
  refine ⟨fun hparn => ?_, fun par hpars => ⟨fun hc => ?_, fun hnc => ?_⟩⟩
  · rw [hver, hbn, resolvedVersion, resetVersionFlag, hparn]
    simp [hv0]
  · rw [hver, hbn, resolvedVersion, resetVersionFlag, hpars]
    simp [hv0, hc.1, hc.2]
  · rw [hver, resolvedVersion, resetVersionFlag, hpars]
    have hflag : (app.id != par.applicationId && p.ptype == "build") = false := by
      by_cases h1 : app.id = par.applicationId
      · simp [h1]
      · by_cases h2 : p.ptype = "build"
        · exact absurd ⟨h1, h2⟩ hnc
        · simp [h2]
    simp [hv0, hflag]

/-- Witness for C2 covering three cells: no parent (version reset to the
build number); same-application parent on a type-"build" pipeline
(version kept); foreign parent on a "build" pipeline (version reset). -/
theorem InsertPipelineBuild_version_rule_witness :
    ∃ res, InsertPipelineBuild [] cProj cPipe cApp none [] [] cEnv 5 cTrig
        100 cOrder = some res ∧ res.pb.version = res.pb.buildNumber := by
  have hsome : (InsertPipelineBuild [] cProj cPipe cApp none [] [] cEnv 5
      cTrig 100 cOrder).isSome = true := by decide
  obtain ⟨res, hres⟩ := Option.isSome_iff_exists.1 hsome
  exact ⟨res, hres, (InsertPipelineBuild_version_rule [] cProj cPipe cApp
    none [] [] cEnv 5 cTrig 100 cOrder res hres (by omega)).1 rfl⟩

/-- C2 counterexample: a build supplied version 5 with a parent living in
application 99, created for application 42 on a pipeline of type
"deployment".  The claim's rule (inherit exactly when the parent is in
the same application AND the type is not "build") demands the stored
version fall back to the build number 1; the code keeps 5, because its
reset fires only when the parent is foreign AND the type is "build". -/
theorem InsertPipelineBuild_version_claim_refuted :
    ((InsertPipelineBuild [] cProj cPipeDeploy cApp none [] [] cEnv 5
        cTrigParent 100 cOrder).map
      (fun res => (res.pb.version, res.pb.buildNumber))) = some (5, 1) ∧
    cTrigParent.parentPipelineBuild.map (fun par => par.applicationId) =
      some 99 ∧
    cApp.id = 42 ∧ cPipeDeploy.ptype = "deployment" ∧ (5 : Int) ≠ 1 := by
  decide

/-! C3: the done timestamp at creation. -/

/-- C3 (amended): every row created by a successful InsertPipelineBuild
has status Building yet a NON-null done column — the INSERT passes
time.Now() for done, the same instant as start — so the claimed
equivalence (done non-null iff terminal status) fails at creation; the
update path then writes whatever done value the in-memory build carries. -/
theorem insertPipelineBuild_done_set_at_creation (db : List BuildRow)
    (project : Project) (p : Pipeline) (app : Application)
    (client : Option VCSClient) (appArgs params0 : List Parameter)
    (env : Environment) (version : Int) (trigger : PipelineBuildTrigger)
    (now : Int) (order : List String) (res : InsertResult)
    (h : InsertPipelineBuild db project p app client appArgs params0 env
      version trigger now order = some res) :
    ∃ row, res.db = db ++ [row] ∧ row.status = Status.building ∧
      row.done = some now ∧ row.startTime = now ∧
      Status.building.isTerminal = false := by
  obtain ⟨params, trig, row, hp, hvars, hargs, hnew, hbn, hver, hpar, hdb,
    hid, hargsrow, hrbn, hrver, hrst, hrstart, hrdone, hrtriple, hrstages⟩ :=
    InsertPipelineBuild_run db project p app client appArgs params0 env
      version trigger now order res h
  exact ⟨row, hdb, hrst, hrdone, hrstart, rfl⟩

/-- C3 counterexample: the concrete fresh build inserted at time 100 is
stored with status Building and done = 100 (non-null), so
done ≠ null ⇔ terminal is false for it. -/
theorem insertPipelineBuild_done_claim_refuted :
    ((InsertPipelineBuild [] cProj cPipe cApp none [] [] cEnv 0 cTrig 100
        cOrder).map
      (fun res => res.db.map (fun r => (r.status, r.done)))) =
      some [(Status.building, some 100)] ∧
    ¬((some (100 : Int) ≠ none) ↔ Status.building.isTerminal = true) := by
  decide



/-- Witness for C3: the concrete run of the amended statement. -/
theorem insertPipelineBuild_done_set_at_creation_witness :
    ∃ res, InsertPipelineBuild [] cProj cPipe cApp none [] [] cEnv 0 cTrig
        100 cOrder = some res ∧
      ∃ row, res.db = [] ++ [row] ∧ row.status = Status.building ∧
        row.done = some 100 ∧ row.startTime = 100 ∧
        Status.building.isTerminal = false := by
  have hsome : (InsertPipelineBuild [] cProj cPipe cApp none [] [] cEnv 0
      cTrig 100 cOrder).isSome = true := by decide
  obtain ⟨res, hres⟩ := Option.isSome_iff_exists.1 hsome
  exact ⟨res, hres, insertPipelineBuild_done_set_at_creation [] cProj cPipe
    cApp none [] [] cEnv 0 cTrig 100 cOrder res hres⟩

/-! C9: determinism of the stored parameter list. -/

/-- C9 (amended): the multiset of parameters serialized at the insert is
a deterministic function of the inputs — two successful runs with
identical pipeline defaults, application overrides, caller parameters
and VCS context resolve the same variable map and store permutations of
one another — but the order is NOT determined: it follows the Go map
iteration order, an unspecified input of each run, so within-source
parameter order does not survive into the stored list. -/
theorem InsertPipelineBuild_args_perm (db : List BuildRow)
    (project : Project) (p : Pipeline) (app : Application)
    (client : Option VCSClient) (appArgs params0 : List Parameter)
    (env : Environment) (version : Int) (trigger : PipelineBuildTrigger)
    (now : Int) (o1 o2 : List String) (r1 r2 : InsertResult)
    (h1 : InsertPipelineBuild db project p app client appArgs params0 env
      version trigger now o1 = some r1)
    (h2 : InsertPipelineBuild db project p app client appArgs params0 env
      version trigger now o2 = some r2)
    (hv1 : validIterationOrder r1.vars o1)
    (hv2 : validIterationOrder r2.vars o2) :
    r1.vars = r2.vars ∧ r1.argsInsert.Perm r2.argsInsert := by
  obtain ⟨params1, trig1, row1, hp1, hvars1, hargs1, _⟩ :=
    InsertPipelineBuild_run db project p app client appArgs params0 env
      version trigger now o1 r1 h1
  obtain ⟨params2, trig2, row2, hp2, hvars2, hargs2, _⟩ :=
    InsertPipelineBuild_run db project p app client appArgs params0 env
      version trigger now o2 r2 h2
  rw [hp1] at hp2
  have hpe' : (params1, trig1) = (params2, trig2) := Option.some.inj hp2
  have hpe : params1 = params2 := congrArg Prod.fst hpe'
  have hveq : r1.vars = r2.vars := by
    rw [hvars1, hvars2, hpe]
  refine ⟨hveq, ?_⟩
  rw [hargs1, hargs2, ← hveq]
  unfold validIterationOrder at hv1 hv2
  rw [← hveq] at hv2
  have hoo : o1.Perm o2 := hv1.trans hv2.symm
  exact hoo.filterMap _

/-- Witness for C9: the same concrete run under two iteration orders;
the stored lists are permutations of each other. -/
theorem InsertPipelineBuild_args_perm_witness :
    ∃ r1 r2, InsertPipelineBuild [] cProj cPipe cApp none [] [] cEnv 0
        cTrig 100 cOrder = some r1 ∧
      InsertPipelineBuild [] cProj cPipe cApp none [] [] cEnv 0 cTrig 100
        cOrder.reverse = some r2 ∧
      r1.argsInsert.Perm r2.argsInsert := by
  rcases hr1 : InsertPipelineBuild [] cProj cPipe cApp none [] [] cEnv 0
      cTrig 100 cOrder with _ | r1
  · exact absurd hr1 (by decide)
  rcases hr2 : InsertPipelineBuild [] cProj cPipe cApp none [] [] cEnv 0
      cTrig 100 cOrder.reverse with _ | r2
  · exact absurd hr2 (by decide)
  have hd1 : (InsertPipelineBuild [] cProj cPipe cApp none [] [] cEnv 0
      cTrig 100 cOrder).map
      (fun r => decide (validIterationOrder r.vars cOrder)) = some true := by
    decide
  have hd2 : (InsertPipelineBuild [] cProj cPipe cApp none [] [] cEnv 0
      cTrig 100 cOrder.reverse).map
      (fun r => decide (validIterationOrder r.vars cOrder.reverse)) =
      some true := by
    decide
  rw [hr1] at hd1
  rw [hr2] at hd2
  have hv1 : validIterationOrder r1.vars cOrder :=
    of_decide_eq_true (Option.some.inj (by simpa using hd1))
  have hv2 : validIterationOrder r2.vars cOrder.reverse :=
    of_decide_eq_true (Option.some.inj (by simpa using hd2))
  exact ⟨r1, r2, rfl, rfl, (InsertPipelineBuild_args_perm [] cProj cPipe
    cApp none [] [] cEnv 0 cTrig 100 cOrder cOrder.reverse r1 r2 hr1 hr2
    hv1 hv2).2⟩

/-- C9 counterexample: two runs with identical inputs, each under a
genuine iteration order of the same resolved map (the insertion order
and its reverse), serialize the parameters in different orders: the
stored lists differ, refuting strict determinism and within-source order
preservation. -/
theorem InsertPipelineBuild_order_nondet :
    ((InsertPipelineBuild [] cProj cPipe cApp none [] [] cEnv 0 cTrig 100
        cOrder).map
      (fun r => decide (validIterationOrder r.vars cOrder))) = some true ∧
    ((InsertPipelineBuild [] cProj cPipe cApp none [] [] cEnv 0 cTrig 100
        cOrder.reverse).map
      (fun r => decide (validIterationOrder r.vars cOrder.reverse))) =
      some true ∧
    (InsertPipelineBuild [] cProj cPipe cApp none [] [] cEnv 0 cTrig 100
        cOrder).map InsertResult.argsInsert ≠
      (InsertPipelineBuild [] cProj cPipe cApp none [] [] cEnv 0 cTrig 100
        cOrder.reverse).map InsertResult.argsInsert := by
  decide


/-! C8: presence of the canonical parameter keys. -/

theorem mem_keys_mapUpsert {m : List (String × Parameter)} {q : Parameter}
    {n : String} :
    n ∈ (mapUpsert m q).map Prod.fst ↔ n = q.name ∨ n ∈ m.map Prod.fst := by
  unfold mapUpsert
  split
  next hany =>
    have hkeys : (m.map (fun e => if e.1 == q.name then (q.name, q) else e)).map
        Prod.fst = m.map Prod.fst := by
      rw [List.map_map]
      apply List.map_congr_left
      intro e _
      by_cases hc : e.1 = q.name
      · simp [hc]
      · simp [hc]
    rw [hkeys]
    constructor
    · exact Or.inr
    · rintro (h | h)
      · subst h
        simp only [List.any_eq_true] at hany
        obtain ⟨e, he, heq⟩ := hany
        have he1 : e.1 = q.name := by simpa using heq
        exact he1 ▸ List.mem_map.2 ⟨e, he, rfl⟩
      · exact h
  next hany =>
    simp only [List.map_append, List.map_cons, List.map_nil,
      List.mem_append, List.mem_cons]
    constructor
    · rintro (h | h)
      · exact Or.inr h
      · simp only [List.not_mem_nil, or_false] at h
        exact Or.inl h
    · rintro (h | h)
      · exact Or.inr (Or.inl h)
      · exact Or.inl h

theorem mem_keys_processFold (l : List Parameter) :
    ∀ (m : List (String × Parameter)) (n : String),
      n ∈ (l.foldl mapUpsert m).map Prod.fst ↔
        n ∈ m.map Prod.fst ∨ n ∈ l.map (fun q => q.name) := by
  induction l with
  | nil => intro m n; simp
  | cons q t ih =>
    intro m n
    rw [List.foldl_cons, ih, mem_keys_mapUpsert]
    simp only [List.map_cons, List.mem_cons]
    tauto

theorem mem_keys_process {a b c : List Parameter} {n : String} :
    n ∈ (ProcessPipelineBuildVariables a b c).map Prod.fst ↔
      n ∈ (a ++ b ++ c).map (fun q => q.name) := by
  unfold ProcessPipelineBuildVariables
  rw [mem_keys_processFold]
  simp

theorem wellKeyed_mapUpsert {m : List (String × Parameter)} {q : Parameter}
    (hm : ∀ e ∈ m, e.2.name = e.1) :
    ∀ e ∈ mapUpsert m q, e.2.name = e.1 := by
  intro e he
  unfold mapUpsert at he
  split at he
  · obtain ⟨e0, he0, heq⟩ := List.mem_map.1 he
    by_cases hc : (e0.1 == q.name) = true
    · rw [if_pos hc] at heq
      subst heq
      rfl
    · rw [if_neg hc] at heq
      subst heq
      exact hm e0 he0
  · rcases List.mem_append.1 he with h | h
    · exact hm e h
    · simp only [List.mem_singleton] at h
      subst h
      rfl

theorem wellKeyed_process (a b c : List Parameter) :
    ∀ e ∈ ProcessPipelineBuildVariables a b c, e.2.name = e.1 := by
  unfold ProcessPipelineBuildVariables
  generalize a ++ b ++ c = l
  have : ∀ (l : List Parameter) (m : List (String × Parameter)),
      (∀ e ∈ m, e.2.name = e.1) → ∀ e ∈ l.foldl mapUpsert m, e.2.name = e.1 := by
    intro l
    induction l with
    | nil => intro m hm; exact hm
    | cons q t ih => intro m hm; exact ih _ (wellKeyed_mapUpsert hm)
  exact this l [] (by simp)

theorem lookup_of_mem_keys {m : List (String × Parameter)} {n : String}
    (hn : n ∈ m.map Prod.fst) :
    ∃ v, m.lookup n = some v ∧ (n, v) ∈ m := by
  induction m with
  | nil => simp at hn
  | cons e t ih =>
    by_cases hc : (e.1 == n) = true
    · have he1 : n = e.1 := (beq_iff_eq.1 hc).symm
      refine ⟨e.2, ?_, ?_⟩
      · show List.lookup n (e :: t) = some e.2
        rw [show e = (e.1, e.2) from rfl]
        have hc2 : (n == e.1) = true := by
          rw [beq_iff_eq] at hc ⊢
          exact hc.symm
        simp [List.lookup, hc2]
      · subst he1
        exact List.mem_cons.2 (Or.inl rfl)
    · have hn' : n ∈ t.map Prod.fst := by
        simp only [List.map_cons, List.mem_cons] at hn
        rcases hn with h | h
        · exact absurd (by simp [h]) hc
        · exact h
      obtain ⟨v, hl, hmem⟩ := ih hn'
      refine ⟨v, ?_, List.mem_cons.2 (Or.inr hmem)⟩
      show List.lookup n (e :: t) = some v
      rw [show e = (e.1, e.2) from rfl]
      have hc2 : (n == e.1) = false := by
        rw [beq_eq_false_iff_ne]
        intro hne
        exact hc (by simp [hne])
      simp [List.lookup, hc2, hl]

theorem mem_names_iterateMap {m : List (String × Parameter)}
    {order : List String} {n : String} (hv : validIterationOrder m order)
    (hw : ∀ e ∈ m, e.2.name = e.1) (hn : n ∈ m.map Prod.fst) :
    n ∈ (iterateMap m order).map (fun q => q.name) := by
  obtain ⟨v, hl, hmem⟩ := lookup_of_mem_keys hn
  have hno : n ∈ order := hv.mem_iff.2 hn
  have hvi : v ∈ iterateMap m order := List.mem_filterMap.2 ⟨n, hno, hl⟩
  have hvn : v.name = n := hw (n, v) hmem
  exact hvn ▸ List.mem_map.2 ⟨v, hvi, rfl⟩


theorem names_mono_append {l : List Parameter} (l2 : List Parameter)
    {n : String} (h : n ∈ l.map (fun q => q.name)) :
    n ∈ (l ++ l2).map (fun q => q.name) := by
  simp only [List.map_append, List.mem_append]
  exact Or.inl h

theorem suffix_refl (l : List Parameter) : ∃ s, l = l ++ s :=
  ⟨[], by simp⟩

theorem suffix_add {l m : List Parameter} (h : ∃ s, m = l ++ s)
    (nm tp v : String) : ∃ s, AddParameter m nm tp v = l ++ s := by
  obtain ⟨s, hs⟩ := h
  exact ⟨s ++ [⟨nm, tp, v⟩], by simp [AddParameter, hs]⟩

theorem pbParamsUser_append (trigger : PipelineBuildTrigger)
    (params : List Parameter) :
    ∃ suffix, pbParamsUser trigger params = params ++ suffix := by
  unfold pbParamsUser
  split
  · exact suffix_refl params
  · exact suffix_add (suffix_add (suffix_add (suffix_refl params) _ _ _)
      _ _ _) _ _ _

theorem foldl_found_name (key : String) (params : List Parameter) :
    ∀ (init : Option String) (v : String),
      params.foldl (fun acc q =>
        if q.name == key && q.value != "" then some q.value else acc) init =
        some v →
      init = some v ∨ key ∈ params.map (fun q => q.name) := by
  induction params with
  | nil => intro init v h; exact Or.inl h
  | cons q t ih =>
    intro init v h
    rw [List.foldl_cons] at h
    rcases ih _ _ h with hi | hk
    · by_cases hq : (q.name == key && q.value != "") = true
      · right
        have hq' := hq
        simp only [Bool.and_eq_true, beq_iff_eq] at hq'
        simp only [List.map_cons, List.mem_cons]
        exact Or.inl hq'.1.symm
      · rw [if_neg hq] at hi
        exact Or.inl hi
    · right
      simp only [List.map_cons, List.mem_cons]
      exact Or.inr hk

theorem pbParamsGit_props (client : Option VCSClient)
    (trigger : PipelineBuildTrigger) (params : List Parameter) :
    (∃ suffix, (pbParamsGit client trigger params).1 = params ++ suffix) ∧
    "git.branch" ∈ (pbParamsGit client trigger params).1.map
      (fun q => q.name) := by
  unfold pbParamsGit
  split
  · constructor
    · exact suffix_add (suffix_add (suffix_refl params) _ _ _) _ _ _
    · simp [AddParameter]
  · dsimp only
    split
    next hfb =>
      split
      · constructor
        · exact suffix_add (suffix_add (suffix_refl params) _ _ _) _ _ _
        · simp [AddParameter]
      · constructor
        · exact suffix_add (suffix_refl params) _ _ _
        · simp [AddParameter]
    next b hfb =>
      have hgb : "git.branch" ∈ params.map (fun q => q.name) := by
        rcases foldl_found_name "git.branch" params none b hfb with hi | hk
        · exact absurd hi (by simp)
        · exact hk
      split
      · constructor
        · exact suffix_add (suffix_refl params) _ _ _
        · exact names_mono_append _ hgb
      · exact ⟨suffix_refl params, hgb⟩

theorem pbParamsCommit_append (client : Option VCSClient)
    (pt : List Parameter × PipelineBuildTrigger) :
    ∃ suffix, (pbParamsCommit client pt).1 = pt.1 ++ suffix := by
  unfold pbParamsCommit
  split
  · split
    · split
      · exact suffix_add (suffix_add (suffix_refl pt.1) _ _ _) _ _ _
      · exact suffix_refl pt.1
    · exact suffix_refl pt.1
  · exact suffix_refl pt.1

theorem pbPhases_names (client : Option VCSClient)
    (trigger : PipelineBuildTrigger) (base : List Parameter) :
    (∀ n ∈ base.map (fun q => q.name),
      n ∈ (pbParamsCommit client (pbParamsGit client trigger
        (pbParamsUser trigger base))).1.map (fun q => q.name)) ∧
    "git.branch" ∈ (pbParamsCommit client (pbParamsGit client trigger
      (pbParamsUser trigger base))).1.map (fun q => q.name) := by
  obtain ⟨s1, hs1⟩ := pbParamsUser_append trigger base
  obtain ⟨⟨s2, hs2⟩, hgb⟩ :=
    pbParamsGit_props client trigger (pbParamsUser trigger base)
  obtain ⟨s3, hs3⟩ := pbParamsCommit_append client
    (pbParamsGit client trigger (pbParamsUser trigger base))
  constructor
  · intro n hn
    rw [hs3, hs2, hs1]
    exact names_mono_append _ (names_mono_append _ (names_mono_append _ hn))
  · rw [hs3]
    exact names_mono_append _ hgb

theorem insertPBParams_names (p : Pipeline) (app : Application)
    (env : Environment) (pbBN pbVersion : Int) (client : Option VCSClient)
    (trigger : PipelineBuildTrigger) (params0 params : List Parameter)
    (trig : PipelineBuildTrigger)
    (h : insertPBParams p app env pbBN pbVersion client trigger params0 =
      some (params, trig)) :
    ∀ n, (n ∈ params0.map (fun q => q.name) ∨
      n ∈ ["cds.pipeline", "cds.project", "cds.application",
        "cds.environment", "cds.buildNumber", "cds.version", "git.branch"]) →
      n ∈ params.map (fun q => q.name) := by
  unfold insertPBParams at h
  dsimp only at h
  split at h
  next =>
    unfold insertPBParamsRest at h
    have hx := congrArg Prod.fst (Option.some.inj h)
    dsimp only at hx
    rw [← hx]
    obtain ⟨hmono, hgb⟩ := pbPhases_names none trigger _
    intro n hn
    rcases hn with hn | hn
    · refine hmono n ?_
      simp only [AddParameter, List.map_append, List.mem_append]
      tauto
    · simp only [List.mem_cons, List.not_mem_nil, or_false] at hn
      rcases hn with h1|h1|h1|h1|h1|h1|h1 <;> subst h1
      · exact hmono _ (by simp [AddParameter])
      · exact hmono _ (by simp [AddParameter])
      · exact hmono _ (by simp [AddParameter])
      · exact hmono _ (by simp [AddParameter])
      · exact hmono _ (by simp [AddParameter])
      · exact hmono _ (by simp [AddParameter])
      · exact hgb
  next c =>
    split at h
    next => exact Option.noConfusion h
    next repo =>
      unfold insertPBParamsRest at h
      have hx := congrArg Prod.fst (Option.some.inj h)
      dsimp only at hx
      rw [← hx]
      obtain ⟨hmono, hgb⟩ := pbPhases_names (some c) trigger _
      intro n hn
      rcases hn with hn | hn
      · refine hmono n ?_
        simp only [AddParameter, List.map_append, List.mem_append]
        tauto
      · simp only [List.mem_cons, List.not_mem_nil, or_false] at hn
        rcases hn with h1|h1|h1|h1|h1|h1|h1 <;> subst h1
        · exact hmono _ (by simp [AddParameter])
        · exact hmono _ (by simp [AddParameter])
        · exact hmono _ (by simp [AddParameter])
        · exact hmono _ (by simp [AddParameter])
        · exact hmono _ (by simp [AddParameter])
        · exact hmono _ (by simp [AddParameter])
        · exact hgb

/-- C8 (amended): every build created by a successful InsertPipelineBuild
stores a parameter list containing the keys cds.pipeline, cds.project,
cds.application, cds.environment, cds.buildNumber, cds.version and
git.branch — also when no VCS client is bound or responsive — both in
the list serialized at the insert and in the finally stored row.  The
key git.hash, by contrast, can be absent (see the counterexample), so
the claim fails only on that key. -/
theorem InsertPipelineBuild_canonical_keys (db : List BuildRow)
    (project : Project) (p : Pipeline) (app : Application)
    (client : Option VCSClient) (appArgs params0 : List Parameter)
    (env : Environment) (version : Int) (trigger : PipelineBuildTrigger)
    (now : Int) (order : List String) (res : InsertResult)
    (h : InsertPipelineBuild db project p app client appArgs params0 env
      version trigger now order = some res)
    (hord : validIterationOrder res.vars order) :
    ∃ row, res.db = db ++ [row] ∧
      ∀ n ∈ ["cds.pipeline", "cds.project", "cds.application",
        "cds.environment", "cds.buildNumber", "cds.version", "git.branch"],
        n ∈ res.argsInsert.map (fun q => q.name) ∧
        n ∈ row.args.map (fun q => q.name) := by
  obtain ⟨params, trig, row, hp, hvars, hargs, hnew, hbn, hver, hpar, hdb,
    hid, hargsrow, hrbn, hrver, hrst, hrstart, hrdone, hrtriple, hrstages⟩ :=
    InsertPipelineBuild_run db project p app client appArgs params0 env
      version trigger now order res h
  refine ⟨row, hdb, ?_⟩
  intro n hn
  have hparams := insertPBParams_names p app env _ _ client trigger params0
    params trig hp n (Or.inr hn)
  have hkeys : n ∈ res.vars.map Prod.fst := by
    rw [hvars, mem_keys_process]
    simp only [List.map_append, List.mem_append]
    exact Or.inr hparams
  have hw : ∀ e ∈ res.vars, e.2.name = e.1 := by
    rw [hvars]
    exact wellKeyed_process _ _ _
  have hins : n ∈ res.argsInsert.map (fun q => q.name) := by
    rw [hargs]
    exact mem_names_iterateMap hord hw hkeys
  refine ⟨hins, ?_⟩
  rcases hargsrow with hrow | ⟨ph, hrow⟩
  · rw [hrow]
    exact hins
  · rw [hrow]
    unfold AddParameter
    exact names_mono_append _ hins

/-- Witness for C8: the concrete clientless run; all seven keys are
present in the serialized list and the stored row. -/
theorem InsertPipelineBuild_canonical_keys_witness :
    ∃ res, InsertPipelineBuild [] cProj cPipe cApp none [] [] cEnv 0 cTrig
        100 cOrder = some res ∧
      ∃ row, res.db = [] ++ [row] ∧
        ∀ n ∈ ["cds.pipeline", "cds.project", "cds.application",
          "cds.environment", "cds.buildNumber", "cds.version", "git.branch"],
          n ∈ res.argsInsert.map (fun q => q.name) ∧
          n ∈ row.args.map (fun q => q.name) := by
  rcases hr : InsertPipelineBuild [] cProj cPipe cApp none [] [] cEnv 0
      cTrig 100 cOrder with _ | res
  · exact absurd hr (by decide)
  have hd : (InsertPipelineBuild [] cProj cPipe cApp none [] [] cEnv 0
      cTrig 100 cOrder).map
      (fun r => decide (validIterationOrder r.vars cOrder)) = some true := by
    decide
  rw [hr] at hd
  have hv : validIterationOrder res.vars cOrder :=
    of_decide_eq_true (Option.some.inj (by simpa using hd))
  exact ⟨res, rfl, InsertPipelineBuild_canonical_keys [] cProj cPipe cApp
    none [] [] cEnv 0 cTrig 100 cOrder res hr hv⟩

/-- C8 counterexample: in the clientless run with no trigger branch and
no caller parameters, the stored names are exactly the seven keys of the
amended statement and git.hash is absent, contradicting the claim that
git.hash is always included. -/
theorem InsertPipelineBuild_git_hash_missing :
    ((InsertPipelineBuild [] cProj cPipe cApp none [] [] cEnv 0 cTrig 100
        cOrder).map
      (fun res => (res.argsInsert.map (fun q => q.name),
        decide (validIterationOrder res.vars cOrder)))) =
      some (cOrder, true) ∧
    ¬("git.hash" ∈ cOrder) := by
  decide


end CDS
